import Mathlib

/-
Verification of the n-dimensional chess engine in
src/static/n_dimensional_chess.js.

Modelling conventions.  JavaScript arrays of integer coordinates become
`List Int`.  The occupancy dictionary `pieces` (keyed by the comma-joined
coordinate string, which is injective on integer tuples) becomes an
association list keyed by the coordinate list itself; `getPieceAt` is the
lookup.  JavaScript numbers are modelled as exact arithmetic: integers as
`Int`/`Nat`, and the move-complexity arithmetic (which multiplies by 0.5,
0.2 and 1.5 and takes one square root) over `ℚ`, with the single
`Math.sqrt(distanceSquared)` carried symbolically: a complexity value is a
pair `(a, b) : ℚ × ℚ` denoting `a + b * sqrt distanceSquared`, and the
final `Math.round(x * 10) / 10` is computed exactly by `roundTo1` via
integer square roots.  Mutation of the global `validMoves` by the
generators becomes pure list-returning functions that append in the same
order as the JavaScript `push` calls.
-/

namespace NDChess

/-- PIECE_TYPES of n_dimensional_chess.js. -/
inductive PieceType where
  | pawn | rook | knight | bishop | queen | king
  | hyperrook | hyperbishop | hyperknight
deriving DecidableEq, Repr

/-- PIECE_COLORS of n_dimensional_chess.js. -/
inductive Color where
  | white | black
deriving DecidableEq, Repr

/-- The color of the opponent. -/
def Color.other : Color → Color
  | .white => .black
  | .black => .white

/-- A value of the `pieces` dictionary: its `type`, `color` and `coords`
fields (the `mesh` field is rendering-only and omitted). -/
structure PieceVal where
  type : PieceType
  color : Color
  coords : List Int
deriving DecidableEq, Repr

/-- An n-dimensional coordinate tuple. -/
abbrev Coords := List Int

/-- The occupancy dictionary: an association list from coordinate key to
piece value.  The comma-joined JavaScript string key is injective on
integer tuples, so the coordinate list itself serves as the key. -/
abbrev Pieces := List (Coords × PieceVal)

/-- getPieceAt: look a coordinate up in the pieces dictionary. -/
def getPieceAt (pieces : Pieces) (coords : Coords) : Option PieceVal :=
  match pieces with
  | [] => none
  | (k, v) :: rest => if k = coords then some v else getPieceAt rest coords

/-- canCapture: there is a piece at `coords` and its color differs. -/
def canCapture (pieces : Pieces) (coords : Coords) (color : Color) : Bool :=
  match getPieceAt pieces coords with
  | some p => p.color ≠ color
  | none => false

/-- The JavaScript pattern `newCoords = [...coords]; newCoords[dim] += delta`. -/
def bump (coords : Coords) (dim : Nat) (delta : Int) : Coords :=
  coords.set dim (coords.getD dim 0 + delta)

/-- The landing-square check `if (!piece) push; else if (piece.color !== color) push`:
returns the destination when the square is empty or enemy-occupied. -/
def landable (pieces : Pieces) (color : Color) (move : Coords) : Option Coords :=
  match getPieceAt pieces move with
  | none => some move
  | some p => if p.color ≠ color then some move else none

/-- One sliding scan `for (i = startIdx; ...; i++)` with the shared
stop/capture rule: an empty square is kept and the scan continues, an
enemy square is kept and the scan stops, a friendly square stops the scan.
`fuel` is the number of remaining distances to try. -/
def scanRay (pieces : Pieces) (color : Color) (step : Nat → Coords) :
    Nat → Nat → List Coords
  | _, 0 => []
  | i, fuel + 1 =>
    let c := step i
    match getPieceAt pieces c with
    | none => c :: scanRay pieces color step (i + 1) fuel
    | some p => if p.color = color then [] else [c]

/-- Rook move range per dimension (calculateRookMoves):
`dimensionalFatigue ? Math.max(7 - (dim > 2 ? dim : 0), 2) : 7`. -/
def rookRange (fatigue : Bool) (dim : Nat) : Int :=
  if fatigue then max (7 - (if dim > 2 then (dim : Int) else 0)) 2 else 7

/-- calculateRookMoves: for each dimension index below the active count,
scan the positive then the negative direction (skipping dimensions outside
the view when the view is restricted). -/
def calculateRookMoves (pieces : Pieces) (activeDims : List Nat)
    (viewDims : List Nat) (fatigue : Bool) (color : Color) (coords : Coords) :
    List Coords :=
  (List.range activeDims.length).flatMap fun dim =>
    if viewDims.length < 3 ∧ dim ∉ viewDims then []
    else
      let moveRange := (rookRange fatigue dim).toNat
      scanRay pieces color (fun i => bump coords dim (i : Int)) 1 moveRange ++
      scanRay pieces color (fun i => bump coords dim (-(i : Int))) 1 moveRange

/-- Bishop move range per dimension pair (calculateBishopMoves):
`dimensionalFatigue ? Math.max(7 - (Math.max(dim1, dim2) > 2 ? 1 : 0), 3) : 7`. -/
def bishopRange (fatigue : Bool) (dim1 dim2 : Nat) : Int :=
  if fatigue then max (7 - (if max dim1 dim2 > 2 then 1 else 0)) 3 else 7

/-- The JavaScript pattern setting two distinct dimensions of a copy. -/
def bump2 (coords : Coords) (dim1 dim2 : Nat) (d1 d2 : Int) : Coords :=
  bump (bump coords dim1 d1) dim2 d2

/-- calculateBishopMoves: for each pair `dim1 < dim2` of dimension indices
and each of the four sign combinations, scan the diagonal. -/
def calculateBishopMoves (pieces : Pieces) (activeDims : List Nat)
    (viewDims : List Nat) (fatigue : Bool) (color : Color) (coords : Coords) :
    List Coords :=
  (List.range activeDims.length).flatMap fun dim1 =>
    (List.range' (dim1 + 1) (activeDims.length - (dim1 + 1))).flatMap fun dim2 =>
      if viewDims.length < 3 ∧ (dim1 ∉ viewDims ∨ dim2 ∉ viewDims) then []
      else
        let moveRange := (bishopRange fatigue dim1 dim2).toNat
        ([-1, 1] : List Int).flatMap fun d1 =>
          ([-1, 1] : List Int).flatMap fun d2 =>
            scanRay pieces color
              (fun i => bump2 coords dim1 dim2 (d1 * i) (d2 * i)) 1 moveRange

/-- calculateQueenMoves: rook moves then bishop moves. -/
def calculateQueenMoves (pieces : Pieces) (activeDims : List Nat)
    (viewDims : List Nat) (fatigue : Bool) (color : Color) (coords : Coords) :
    List Coords :=
  calculateRookMoves pieces activeDims viewDims fatigue color coords ++
  calculateBishopMoves pieces activeDims viewDims fatigue color coords

/-- calculateKnightMoves: for each ordered pair of distinct dimension
indices (skipping pairs not fully inside a restricted view), the L-moves. -/
def calculateKnightMoves (pieces : Pieces) (activeDims : List Nat)
    (viewDims : List Nat) (color : Color) (coords : Coords) : List Coords :=
  (List.range activeDims.length).flatMap fun dim1 =>
    (List.range activeDims.length).flatMap fun dim2 =>
      if dim1 = dim2 then []
      else if viewDims.length < 3 ∧ (dim1 ∉ viewDims ∨ dim2 ∉ viewDims) then []
      else
        ([-2, 2] : List Int).flatMap fun d1 =>
          ([-1, 1] : List Int).flatMap fun d2 =>
            (landable pieces color (bump2 coords dim1 dim2 d1 d2)).toList ++
            (landable pieces color (bump2 coords dim1 dim2 d2 d1)).toList

/-- The recursive move builder of calculateKingMoves: starting at dimension
`d` with `fuel` dimensions left, produce the tails of all candidate moves.
A dimension outside a restricted view is held at the current coordinate;
otherwise the offsets -1, 0, 1 are tried in order. -/
def kingTails (coords : Coords) (viewDims : List Nat) (restricted : Bool) :
    Nat → Nat → List Coords
  | _, 0 => [[]]
  | d, fuel + 1 =>
    if restricted ∧ d ∉ viewDims then
      (kingTails coords viewDims restricted (d + 1) fuel).map
        (coords.getD d 0 :: ·)
    else
      ([-1, 0, 1] : List Int).flatMap fun δ =>
        (kingTails coords viewDims restricted (d + 1) fuel).map
          ((coords.getD d 0 + δ) :: ·)

/-- calculateKingMoves: all single-step candidates over the active
dimensions, minus the original position, filtered to empty or enemy
squares. -/
def calculateKingMoves (pieces : Pieces) (activeDims : List Nat)
    (viewDims : List Nat) (color : Color) (coords : Coords) : List Coords :=
  let D := activeDims.length
  let moves := (kingTails coords viewDims (viewDims.length < 3) 0 D).filter
    fun m => ¬ ((List.range D).all fun i => m.getD i 0 == coords.getD i 0)
  moves.filterMap (landable pieces color)

/-- Pawn forward direction: -1 for white, +1 for black, along dimension 1. -/
def pawnDirection (color : Color) : Int :=
  if color = .white then -1 else 1

/-- Pawn starting rank in dimension 1: -1 for white, -6 for black. -/
def pawnStartingRank (color : Color) : Int :=
  if color = .white then -1 else -6

/-- The forward part of calculatePawnMoves: the single step when
unobstructed, plus the double step from the starting rank when that
square is also empty. -/
def pawnForwardPart (pieces : Pieces) (color : Color) (coords : Coords) :
    List Coords :=
  match getPieceAt pieces (bump coords 1 (pawnDirection color)) with
  | some _ => []
  | none =>
    bump coords 1 (pawnDirection color) ::
      (if coords.getD 1 0 = pawnStartingRank color then
        match getPieceAt pieces (bump coords 1 (2 * pawnDirection color)) with
        | none => [bump coords 1 (2 * pawnDirection color)]
        | some _ => []
       else [])

/-- calculatePawnMoves: forward step (and double step from the starting
rank) along dimension 1 when unobstructed, plus the two diagonal captures
combining ±1 in dimension 0 with the forward step. -/
def calculatePawnMoves (pieces : Pieces) (color : Color) (coords : Coords) :
    List Coords :=
  let captureLeft := bump (bump coords 0 (-1)) 1 (pawnDirection color)
  let captureRight := bump (bump coords 0 1) 1 (pawnDirection color)
  pawnForwardPart pieces color coords ++
    (if canCapture pieces captureLeft color then [captureLeft] else []) ++
    (if canCapture pieces captureRight color then [captureRight] else [])

/-- The dimension-usage flag lists enumerated by generateMultiDimMoves in
calculateHyperrookMoves: at each dimension the skip branch (flag 0) comes
before the use branch (flag 1). -/
def hyperFlagLists : Nat → List (List Bool)
  | 0 => [[]]
  | n + 1 =>
    (hyperFlagLists n).map (false :: ·) ++ (hyperFlagLists n).map (true :: ·)

/-- The direction combinations enumerated by generateDirections: an
unflagged dimension contributes 0, a flagged dimension tries +1 then -1. -/
def dirCombos : List Bool → List (List Int)
  | [] => [[]]
  | false :: rest => (dirCombos rest).map ((0 : Int) :: ·)
  | true :: rest =>
    (dirCombos rest).map ((1 : Int) :: ·) ++
    (dirCombos rest).map ((-1 : Int) :: ·)

/-- Component-wise `move[dim] += directions[dim] * distance` over the
leading dimensions. -/
def addScaled : Coords → List Int → Int → Coords
  | cs, [], _ => cs
  | [], _, _ => []
  | c :: cs, d :: ds, dist => (c + d * dist) :: addScaled cs ds dist

/-- Hyperrook multi-dimension range for `k` dimensions used:
`dimensionalFatigue ? Math.max(7 - Math.pow(2, dimsUsed - 2), 2) : 7 - dimsUsed`. -/
def hyperrookRange (fatigue : Bool) (k : Nat) : Int :=
  if fatigue then max (7 - (2 : Int) ^ (k - 2)) 2 else 7 - (k : Int)

/-- The multi-dimensional part of calculateHyperrookMoves: every flag list
using at least 2 dimensions, every distance up to the fatigue range, every
direction combination; only the landing square is checked (no blocking). -/
def hyperrookMultiMoves (pieces : Pieces) (color : Color) (fatigue : Bool)
    (coords : Coords) (numDims : Nat) : List Coords :=
  (hyperFlagLists numDims).flatMap fun dimFlags =>
    if 2 ≤ dimFlags.count true then
      (List.range' 1 (hyperrookRange fatigue (dimFlags.count true)).toNat).flatMap
        fun distance =>
          (dirCombos dimFlags).filterMap fun directions =>
            landable pieces color (addScaled coords directions (distance : Int))
    else []

/-- The dimensional-transport part of calculateHyperrookMoves: when more
than 3 dimensions are active, shifts of ±1..3 along each active dimension
value ≥ 3, landing-square check only. -/
def hyperrookTransportMoves (pieces : Pieces) (color : Color)
    (coords : Coords) (activeDims : List Nat) : List Coords :=
  if 3 < activeDims.length then
    (activeDims.filter (fun dim => 3 ≤ dim)).flatMap fun dim =>
      ([-3, -2, -1, 1, 2, 3] : List Int).filterMap fun offset =>
        landable pieces color (bump coords dim offset)
  else []

/-- calculateHyperrookMoves: standard rook moves, then the multi-dimension
moves, then the dimensional-transport moves. -/
def calculateHyperrookMoves (pieces : Pieces) (activeDims : List Nat)
    (viewDims : List Nat) (fatigue : Bool) (color : Color) (coords : Coords) :
    List Coords :=
  calculateRookMoves pieces activeDims viewDims fatigue color coords ++
  hyperrookMultiMoves pieces color fatigue coords activeDims.length ++
  hyperrookTransportMoves pieces color coords activeDims

/-- One hyper-diagonal move of generateHyperDiagonals: for bit pattern
`dirIdx`, add `±distance` to each selected dimension (bit set: +1). -/
def applyDiag (coords : Coords) (dims : List Nat) (dirIdx : Nat)
    (distance : Int) : Coords :=
  (List.range dims.length).foldl
    (fun mv i =>
      bump mv (dims.getD i 0) ((if dirIdx.testBit i then 1 else -1) * distance))
    coords

/-- generateHyperDiagonals: all `2^dims.length` sign patterns at the given
distance, landing-square check only; nothing when fewer than 3 dimensions
are selected. -/
def hyperDiagonals (pieces : Pieces) (color : Color) (coords : Coords)
    (dims : List Nat) (distance : Int) : List Coords :=
  if dims.length < 3 then []
  else
    (List.range (2 ^ dims.length)).filterMap fun dirIdx =>
      landable pieces color (applyDiag coords dims dirIdx distance)

/-- Hyperbishop range for `k` dimensions used:
`dimensionalFatigue ? Math.max(7 - Math.pow(2, numDims - 3), 2) : 7 - numDims + 2`. -/
def hyperbishopRange (fatigue : Bool) (k : Nat) : Int :=
  if fatigue then max (7 - (2 : Int) ^ (k - 3)) 2 else 7 - (k : Int) + 2

/-- generateDimensionCombinations of calculateHyperbishopMoves: depth-first
enumeration of increasing dimension-index combinations starting at `start`;
a combination of 3 or more dimensions emits its hyper-diagonal moves for
every distance up to its fatigue range, then is extended further. -/
def dimCombosMoves (pieces : Pieces) (color : Color) (fatigue : Bool)
    (coords : Coords) (numDims : Nat) (current : List Nat) (start : Nat) :
    List Coords :=
  (if 3 ≤ current.length then
    (List.range' 1 (hyperbishopRange fatigue current.length).toNat).flatMap
      fun distance => hyperDiagonals pieces color coords current (distance : Int)
   else []) ++
  (if current.length < numDims then
    (List.range' start (numDims - start)).attach.flatMap fun i =>
      dimCombosMoves pieces color fatigue coords numDims (current ++ [i.1])
        (i.1 + 1)
   else [])
termination_by numDims - start
decreasing_by
  have h := List.mem_range'_1.mp i.2
  omega

/-- calculateHyperbishopMoves: standard bishop moves, then (when at least
3 dimensions are active) the hyper-diagonal moves over all combinations of
3 or more dimension indices. -/
def calculateHyperbishopMoves (pieces : Pieces) (activeDims : List Nat)
    (viewDims : List Nat) (fatigue : Bool) (color : Color) (coords : Coords) :
    List Coords :=
  calculateBishopMoves pieces activeDims viewDims fatigue color coords ++
  (if 3 ≤ activeDims.length then
    dimCombosMoves pieces color fatigue coords activeDims.length [] 0
   else [])

/-- The JavaScript pattern setting three distinct dimensions of a copy. -/
def bump3 (coords : Coords) (dim1 dim2 dim3 : Nat) (d1 d2 d3 : Int) : Coords :=
  bump (bump (bump coords dim1 d1) dim2 d2) dim3 d3

/-- One teleport family of calculateHyperknightMoves: for every ordered
triple of distinct dimension indices and every sign choice over the given
offset magnitudes, the landing-square check. -/
def hyperknightPattern (pieces : Pieces) (color : Color) (coords : Coords)
    (numDims : Nat) (off1 off2 off3 : List Int) : List Coords :=
  (List.range numDims).flatMap fun dim1 =>
    (List.range numDims).flatMap fun dim2 =>
      if dim1 = dim2 then []
      else
        (List.range numDims).flatMap fun dim3 =>
          if dim1 = dim3 ∨ dim2 = dim3 then []
          else
            off1.flatMap fun d1 =>
              off2.flatMap fun d2 =>
                off3.flatMap fun d3 =>
                  (landable pieces color
                    (bump3 coords dim1 dim2 dim3 d1 d2 d3)).toList

/-- calculateHyperknightMoves: standard knight moves, then the
(±3, ±1, ±1) teleports, then the (±2, ±2, ±1) teleports. -/
def calculateHyperknightMoves (pieces : Pieces) (activeDims : List Nat)
    (viewDims : List Nat) (color : Color) (coords : Coords) : List Coords :=
  calculateKnightMoves pieces activeDims viewDims color coords ++
  hyperknightPattern pieces color coords activeDims.length
    [-3, 3] [-1, 1] [-1, 1] ++
  hyperknightPattern pieces color coords activeDims.length
    [-2, 2] [-2, 2] [-1, 1]

/-- calculateValidMoves: dispatch on the piece type. -/
def calculateValidMoves (pieces : Pieces) (activeDims : List Nat)
    (viewDims : List Nat) (fatigue : Bool) (ptype : PieceType) (color : Color)
    (coords : Coords) : List Coords :=
  match ptype with
  | .pawn => calculatePawnMoves pieces color coords
  | .rook => calculateRookMoves pieces activeDims viewDims fatigue color coords
  | .knight => calculateKnightMoves pieces activeDims viewDims color coords
  | .bishop => calculateBishopMoves pieces activeDims viewDims fatigue color coords
  | .queen => calculateQueenMoves pieces activeDims viewDims fatigue color coords
  | .king => calculateKingMoves pieces activeDims viewDims color coords
  | .hyperrook => calculateHyperrookMoves pieces activeDims viewDims fatigue color coords
  | .hyperbishop => calculateHyperbishopMoves pieces activeDims viewDims fatigue color coords
  | .hyperknight => calculateHyperknightMoves pieces activeDims viewDims color coords

/-- COMPLEXITY_WEIGHTS.PIECE_TYPE. -/
def pieceTypeWeight : PieceType → ℚ
  | .pawn => 1
  | .knight => 3
  | .bishop => 3
  | .rook => 3
  | .queen => 5
  | .king => 2
  | .hyperrook => 7
  | .hyperbishop => 8
  | .hyperknight => 9

/-- The startsWith-hyper test on the piece type string. -/
def PieceType.isHyper : PieceType → Bool
  | .hyperrook => true
  | .hyperbishop => true
  | .hyperknight => true
  | _ => false

/-- The dimension indices whose component changed between the two
coordinate tuples (the `dimensionsUsed` list of calculateMoveComplexity,
which scans the indices of `fromCoords`). -/
def dimensionsUsed (fromCoords toCoords : List Int) : List Nat :=
  (List.range fromCoords.length).filter fun i =>
    toCoords.getD i 0 ≠ fromCoords.getD i 0

/-- The `distanceSquared` accumulator of calculateMoveComplexity. -/
def distanceSquared (fromCoords toCoords : List Int) : Nat :=
  (((List.range fromCoords.length).map fun i =>
    ((toCoords.getD i 0 - fromCoords.getD i 0) *
     (toCoords.getD i 0 - fromCoords.getD i 0)).toNat)).sum

/-- calculateMoveComplexity before rounding, with the exact value carried
as a pair `(a, b)` denoting `a + b * Real.sqrt distanceSquared`; every
step of the source is an affine operation on that pair, applied in source
order: piece-type weight, capture bonus, distance term, higher-dimension
bonus, then the fatigue multiplier, then the dimensions-touched term and
the hyperpiece pair bonus. -/
def calculateMoveComplexity (fromCoords toCoords : List Int)
    (ptype : PieceType) (isCapture fatigue : Bool) : ℚ × ℚ :=
  let dims := dimensionsUsed fromCoords toCoords
  let a1 : ℚ := pieceTypeWeight ptype + (if isCapture then 2 else 0)
  let b1 : ℚ := 1 / 2
  let higherDimsUsed := (dims.filter fun d => 3 ≤ d).length
  let a2 : ℚ := a1 +
    (if 0 < higherDimsUsed then 10 * (3 / 2 : ℚ) ^ higherDimsUsed else 0)
  let fatigueFactor : ℚ :=
    if fatigue ∧ 1 < higherDimsUsed then 1 + higherDimsUsed / 5 else 1
  let a3 : ℚ := a2 * fatigueFactor
  let b3 : ℚ := b1 * fatigueFactor
  let a4 : ℚ := a3 + (dims.length : ℚ) * 5
  let a5 : ℚ := a4 +
    (if ptype.isHyper then
      2 * (min (dims.length * (dims.length - 1) / 2) 10 : ℕ)
     else 0)
  (a5, b3)

/-- Floor of `c + Real.sqrt q` for rationals `c` and `q ≥ 0`, computed
exactly: with `c = cn/cd` and `q = qn/qd`, the value is
`(cn*qd + sqrt (cd^2*qn*qd)) / (cd*qd)`, and replacing the inner square
root by its integer floor does not change the overall floor. -/
def floorAddSqrt (c q : ℚ) : Int :=
  (c.num * (q.den : Int) +
    (Nat.sqrt ((c.den * c.den * q.den) * q.num.toNat) : Int)).ediv
    ((c.den : Int) * (q.den : Int))

/-- The final `Math.round(complexity * 10) / 10` of calculateMoveComplexity
applied to the exact value `a + b * sqrt m` (with `b ≥ 0`):
`floor ((10*a + 1/2) + sqrt ((10*b)^2 * m)) / 10`. -/
def roundTo1 (a b : ℚ) (m : Nat) : ℚ :=
  (floorAddSqrt (10 * a + 1 / 2) ((10 * b) * (10 * b) * (m : ℚ)) : ℚ) / 10

/-- The rounded score that calculateMoveComplexity returns in the source
(its final `Math.round(complexity * 10) / 10`). -/
def roundedComplexity (fromCoords toCoords : List Int) (ptype : PieceType)
    (isCapture fatigue : Bool) : ℚ :=
  let p := calculateMoveComplexity fromCoords toCoords ptype isCapture fatigue
  roundTo1 p.1 p.2 (distanceSquared fromCoords toCoords)

/-- An entry of a captured-pieces list: `{type, color}` of the captured
piece. -/
structure CapturedEntry where
  type : PieceType
  color : Color
deriving DecidableEq, Repr

/-- The `selectedPiece` record `{key, piece, coords}`. -/
structure SelectedPiece where
  key : Coords
  piece : PieceVal
  coords : Coords
deriving DecidableEq, Repr

/-- The mutable game state of n_dimensional_chess.js (engine fields only;
rendering state such as meshes, highlights and the camera is omitted). -/
structure GameState where
  pieces : Pieces
  selectedPiece : Option SelectedPiece
  validMoves : List Coords
  currentTurn : Color
  capturedWhite : List CapturedEntry
  capturedBlack : List CapturedEntry
  totalComplexityScore : ℚ
  lastMoveComplexity : ℚ
  activeDimensions : List Nat
  viewDimensions : List Nat
  dimensionalFatigue : Bool
deriving DecidableEq, Repr

/-- The captured list of a color (`capturedPieces[color]`). -/
def GameState.capturedOf (st : GameState) : Color → List CapturedEntry
  | .white => st.capturedWhite
  | .black => st.capturedBlack

/-- Replace the captured list of a color. -/
def GameState.setCapturedOf (st : GameState) :
    Color → List CapturedEntry → GameState
  | .white, l => { st with capturedWhite := l }
  | .black, l => { st with capturedBlack := l }

/-- The JavaScript `delete pieces[key]`: drop the entry with this key. -/
def eraseKey : Pieces → Coords → Pieces
  | [], _ => []
  | (k, v) :: rest, c => if k = c then rest else (k, v) :: eraseKey rest c

/-- The JavaScript `pieces[key] = piece`: replace in place when present,
append otherwise. -/
def insertKey : Pieces → Coords → PieceVal → Pieces
  | [], c, v => [(c, v)]
  | (k, w) :: rest, c, v =>
    if k = c then (k, v) :: rest else (k, w) :: insertKey rest c v

/-- updateComplexityScore: record the last move complexity and add it to
the running total (display-only logic omitted). -/
def updateComplexityScore (st : GameState) (newPoints : ℚ) : GameState :=
  { st with lastMoveComplexity := newPoints,
            totalComplexityScore := st.totalComplexityScore + newPoints }

/-- movePiece: capture handling (remove the occupant of the destination
and append `{type, color}` to the capturing color captured list), then
relocation of the moving piece under its new key, then the complexity
update.  Animation, sound and notifications are omitted. -/
def movePiece (st : GameState) (sel : SelectedPiece) (newCoords : Coords) :
    GameState :=
  let capturedPiece := getPieceAt st.pieces newCoords
  let isCapture := capturedPiece.isSome
  let st1 :=
    match capturedPiece with
    | some q =>
      let st' := st.setCapturedOf sel.piece.color
        (st.capturedOf sel.piece.color ++ [CapturedEntry.mk q.type q.color])
      { st' with pieces := eraseKey st'.pieces newCoords }
    | none => st
  let movedPiece := { sel.piece with coords := newCoords }
  let st2 := { st1 with
    pieces := insertKey (eraseKey st1.pieces sel.key) newCoords movedPiece }
  let complexityScore :=
    roundedComplexity sel.coords newCoords sel.piece.type isCapture
      st.dimensionalFatigue
  updateComplexityScore st2 complexityScore

/-- deselectCurrentPiece: clear the selection and the cached valid moves
(highlight removal is rendering-only). -/
def deselectCurrentPiece (st : GameState) : GameState :=
  { st with selectedPiece := none, validMoves := [] }

/-- switchTurn. -/
def switchTurn (st : GameState) : GameState :=
  { st with currentTurn := st.currentTurn.other }

/-- handleTileClick on the tile at `coords`, reachable only while a piece
is selected: commit the move when `coords` is among the cached valid
moves (move, deselect, switch turn), otherwise just deselect. -/
def handleTileClick (st : GameState) (coords : Coords) : GameState :=
  match st.selectedPiece with
  | none => st
  | some sel =>
    if coords ∈ st.validMoves then
      switchTurn (deselectCurrentPiece (movePiece st sel coords))
    else
      deselectCurrentPiece st

/-- handlePieceClick followed by selectPiece: ignore the click when there
is no piece at the key or it is not the turn of its color; otherwise
deselect, select the piece and cache its valid moves. -/
def handlePieceClick (st : GameState) (key : Coords) : GameState :=
  match getPieceAt st.pieces key with
  | none => st
  | some piece =>
    if piece.color ≠ st.currentTurn then st
    else
      let st1 := deselectCurrentPiece st
      { st1 with
        selectedPiece := some ⟨key, piece, piece.coords⟩,
        validMoves := calculateValidMoves st.pieces st.activeDimensions
          st.viewDimensions st.dimensionalFatigue piece.type piece.color
          piece.coords }

/-- updateBoardVisualization, engine effect: every piece is re-created by
createPiece from its stored `{type, color, coords}`, which re-keys it by
its comma-joined coordinate string and leaves the coordinate tuple unchanged (no padding
or truncation). -/
def updateBoardVisualization (st : GameState) : GameState :=
  { st with pieces := st.pieces.map fun kv => (kv.2.coords, kv.2) }

/-- Insert a value into a sorted list of dimension indices. -/
def insertSorted (d : Nat) : List Nat → List Nat
  | [] => [d]
  | x :: xs => if d ≤ x then d :: x :: xs else x :: insertSorted d xs

/-- Sorting of the dimension-index list (the JavaScript `.sort()`; all
indices are single digits, so string order is numeric order). -/
def sortNat (l : List Nat) : List Nat := l.foldr insertSorted []

/-- toggleDimension: add the dimension (kept sorted) when absent; when
present, refuse if only 3 dimensions are active, otherwise remove it.
Either successful branch regenerates the board. -/
def toggleDimension (st : GameState) (dimension : Nat) : GameState :=
  if dimension ∈ st.activeDimensions then
    if st.activeDimensions.length ≤ 3 then st
    else
      updateBoardVisualization
        { st with activeDimensions := st.activeDimensions.erase dimension }
  else
    updateBoardVisualization
      { st with activeDimensions :=
          sortNat (st.activeDimensions ++ [dimension]) }

/-- setViewAxis: the axis-selector handlers write a dimension index into a
slot of viewDimensions (the Y handler appends when the slot is past the
end) and regenerate the board. -/
def setViewAxis (st : GameState) (slot dimension : Nat) : GameState :=
  updateBoardVisualization
    { st with viewDimensions :=
        if slot < st.viewDimensions.length then
          st.viewDimensions.set slot dimension
        else st.viewDimensions ++ [dimension] }

/-- The fatigue-toggle button handler. -/
def toggleFatigue (st : GameState) : GameState :=
  { st with dimensionalFatigue := ¬ st.dimensionalFatigue }

/-- A user-input event reaching the engine. -/
inductive Op where
  | pieceClick (key : Coords)
  | tileClick (coords : Coords)
  | deselectClick
  | toggleDim (dimension : Nat)
  | viewAxis (slot dimension : Nat)
  | fatigueToggle
deriving DecidableEq, Repr

/-- The state transition of one event. -/
def applyOp (st : GameState) : Op → GameState
  | .pieceClick key => handlePieceClick st key
  | .tileClick coords => handleTileClick st coords
  | .deselectClick => deselectCurrentPiece st
  | .toggleDim dimension => toggleDimension st dimension
  | .viewAxis slot dimension => setViewAxis st slot dimension
  | .fatigueToggle => toggleFatigue st

/-- A committed move: a tile click while a piece is selected, on a tile in
the cached valid-move set. -/
def isCommit (st : GameState) : Op → Bool
  | .tileClick coords => st.selectedPiece.isSome && decide (coords ∈ st.validMoves)
  | _ => false

/-- Fold a sequence of events over the state. -/
def applyOps (st : GameState) : List Op → GameState
  | [] => st
  | op :: ops => applyOps (applyOp st op) ops

/-- The number of committed moves along a trajectory. -/
def countCommits (st : GameState) : List Op → Nat
  | [] => 0
  | op :: ops =>
    (if isCommit st op then 1 else 0) + countCommits (applyOp st op) ops

/-! Spec-side formulas for the refinement comparisons. -/

/-- The move-complexity formula exactly as the spec states it: all additive
terms (piece weight, capture bonus, distance term, dimensions-touched term,
higher-dimension bonus, hyperpiece pair bonus) are summed first, and the
fatigue multiplier then scales that whole running total. -/
def specClaimMoveComplexity (fromCoords toCoords : List Int)
    (ptype : PieceType) (isCapture fatigue : Bool) : ℚ × ℚ :=
  let dims := dimensionsUsed fromCoords toCoords
  let higherDimsUsed := (dims.filter fun d => 3 ≤ d).length
  let total : ℚ := pieceTypeWeight ptype + (if isCapture then 2 else 0) +
    (dims.length : ℚ) * 5 +
    (if 0 < higherDimsUsed then 10 * (3 / 2 : ℚ) ^ higherDimsUsed else 0) +
    (if ptype.isHyper then
      2 * (min (dims.length * (dims.length - 1) / 2) 10 : ℕ)
     else 0)
  let fatigueFactor : ℚ :=
    if fatigue ∧ 1 < higherDimsUsed then 1 + higherDimsUsed / 5 else 1
  (fatigueFactor * total, fatigueFactor * (1 / 2))

/-- The rounded value of the spec-side formula. -/
def specClaimRounded (fromCoords toCoords : List Int) (ptype : PieceType)
    (isCapture fatigue : Bool) : ℚ :=
  let p := specClaimMoveComplexity fromCoords toCoords ptype isCapture fatigue
  roundTo1 p.1 p.2 (distanceSquared fromCoords toCoords)

/-- The amended formula: the fatigue multiplier scales only the piece
weight, the capture bonus, the distance term and the higher-dimension
bonus; the dimensions-touched term and the hyperpiece pair bonus are added
after the multiplication. -/
def specAmendedMoveComplexity (fromCoords toCoords : List Int)
    (ptype : PieceType) (isCapture fatigue : Bool) : ℚ × ℚ :=
  let dims := dimensionsUsed fromCoords toCoords
  let higherDimsUsed := (dims.filter fun d => 3 ≤ d).length
  let scaled : ℚ := pieceTypeWeight ptype + (if isCapture then 2 else 0) +
    (if 0 < higherDimsUsed then 10 * (3 / 2 : ℚ) ^ higherDimsUsed else 0)
  let fatigueFactor : ℚ :=
    if fatigue ∧ 1 < higherDimsUsed then 1 + higherDimsUsed / 5 else 1
  (fatigueFactor * scaled + (dims.length : ℚ) * 5 +
    (if ptype.isHyper then
      2 * (min (dims.length * (dims.length - 1) / 2) 10 : ℕ)
     else 0),
   fatigueFactor * (1 / 2))

/-- The rounded value of the amended formula. -/
def specAmendedRounded (fromCoords toCoords : List Int) (ptype : PieceType)
    (isCapture fatigue : Bool) : ℚ :=
  let p := specAmendedMoveComplexity fromCoords toCoords ptype isCapture fatigue
  roundTo1 p.1 p.2 (distanceSquared fromCoords toCoords)

/-- The rook fatigue range exactly as the spec states it, Range =
⌊Base / 2 ^ (d - 1)⌋ with Base = 7 and `d` the 1-based dimension number. -/
def specFatigueRange (d : Nat) : Nat :=
  7 / 2 ^ (d - 1)

/-- Abbreviation for the conclusion: the square `m` does not hold a piece
of color `color`. -/
def NotFriendly (pieces : Pieces) (color : Color) (m : Coords) : Prop :=
  ∀ p, getPieceAt pieces m = some p → p.color ≠ color

/-! Concrete fixtures used by the claim counterexamples and witnesses. -/

/-- A single friendly (white) pawn at [1,1,0]. -/
def blockerBoard : Pieces := [([1, 1, 0], ⟨.pawn, .white, [1, 1, 0]⟩)]

/-- A single friendly (white) pawn at [2,0,0]. -/
def rookBlockBoard : Pieces := [([2, 0, 0], ⟨.pawn, .white, [2, 0, 0]⟩)]

/-- A single enemy (black) pawn at [1,0,0]. -/
def enemyBoard : Pieces := [([1, 0, 0], ⟨.pawn, .black, [1, 0, 0]⟩)]

/-- A state holding one white pawn at the origin, three active dimensions. -/
def pawnState : GameState :=
  ⟨[([0, 0, 0], ⟨.pawn, .white, [0, 0, 0]⟩)], none, [], .white, [], [], 0, 0,
    [0, 1, 2], [0, 1, 2], false⟩

/-- A selection of the white rook at the origin. -/
def rookSelection : SelectedPiece :=
  ⟨[0, 0, 0], ⟨.rook, .white, [0, 0, 0]⟩, [0, 0, 0]⟩

/-- A state with the white rook at the origin selected and one cached valid
move [5,5,5]. -/
def selectedState : GameState :=
  ⟨[([0, 0, 0], ⟨.rook, .white, [0, 0, 0]⟩)], some rookSelection,
    [[5, 5, 5]], .white, [], [], 0, 0, [0, 1, 2], [0, 1, 2], false⟩

/-- A state with the selected white rook at the origin and a black pawn at
[1,0,0], with [1,0,0] a cached valid move. -/
def captureState : GameState :=
  ⟨[([0, 0, 0], ⟨.rook, .white, [0, 0, 0]⟩),
    ([1, 0, 0], ⟨.pawn, .black, [1, 0, 0]⟩)], some rookSelection,
    [[1, 0, 0]], .white, [], [], 0, 0, [0, 1, 2], [0, 1, 2], false⟩

/-! Basic lemmas about coordinate updates. -/

theorem bump_length (coords : Coords) (dim : Nat) (δ : Int) :
    (bump coords dim δ).length = coords.length :=
  List.length_set ..

theorem getD_bump_self (coords : Coords) (dim : Nat) (δ : Int)
    (h : dim < coords.length) :
    (bump coords dim δ).getD dim 0 = coords.getD dim 0 + δ := by
  simp [bump, List.getD, List.getElem?_set, h]

theorem getD_bump_ne (coords : Coords) (dim : Nat) (δ : Int) (idx : Nat)
    (h : idx ≠ dim) :
    (bump coords dim δ).getD idx 0 = coords.getD idx 0 := by
  simp [bump, List.getD, List.getElem?_set, Ne.symm h]

theorem bump_of_length_le (coords : Coords) (dim : Nat) (δ : Int)
    (h : coords.length ≤ dim) : bump coords dim δ = coords :=
  List.set_eq_of_length_le h

theorem bump_ne_self (coords : Coords) (dim : Nat) (δ : Int)
    (h : dim < coords.length) (hδ : δ ≠ 0) : bump coords dim δ ≠ coords := by
  intro e
  have := getD_bump_self coords dim δ h
  rw [e] at this
  omega

/-! Lemmas about the landing-square guard. -/

/-- Whatever `landable` returns is the tested square, and it is not
occupied by a friendly piece. -/
theorem landable_some {pieces : Pieces} {color : Color} {move m : Coords}
    (h : landable pieces color move = some m) :
    m = move ∧ ∀ p, getPieceAt pieces m = some p → p.color ≠ color := by
  unfold landable at h
  rcases hg : getPieceAt pieces move with _ | q
  · rw [hg] at h
    cases h
    exact ⟨rfl, fun p hp => by rw [hg] at hp; cases hp⟩
  · rw [hg] at h
    by_cases hq : q.color = color
    · simp [hq] at h
    · simp [hq] at h
      cases h
      exact ⟨rfl, fun p hp => by rw [hg] at hp; cases hp; exact hq⟩

theorem mem_landable_toList {pieces : Pieces} {color : Color} {move m : Coords}
    (h : m ∈ (landable pieces color move).toList) :
    m = move ∧ ∀ p, getPieceAt pieces m = some p → p.color ≠ color := by
  rcases hl : landable pieces color move with _ | x
  · rw [hl] at h; cases h
  · rw [hl] at h
    simp only [Option.toList_some, List.mem_singleton] at h
    subst h
    exact landable_some hl

theorem mem_filterMap_landable {α : Type} {pieces : Pieces} {color : Color}
    {f : α → Coords} {l : List α} {m : Coords}
    (h : m ∈ l.filterMap fun x => landable pieces color (f x)) :
    ∀ p, getPieceAt pieces m = some p → p.color ≠ color := by
  rcases List.mem_filterMap.mp h with ⟨x, _, hx⟩
  exact (landable_some hx).2

/-! Lemmas about sliding scans. -/

/-- No element of a scan is friendly-occupied. -/
theorem scanRay_no_friendly {pieces : Pieces} {color : Color}
    {step : Nat → Coords} :
    ∀ {fuel i m}, m ∈ scanRay pieces color step i fuel →
      ∀ p, getPieceAt pieces m = some p → p.color ≠ color := by
  intro fuel
  induction fuel with
  | zero => intro i m h; cases h
  | succ n ih =>
    intro i m h p hp
    rw [scanRay] at h
    rcases hg : getPieceAt pieces (step i) with _ | q
    · rw [hg] at h
      simp only [List.mem_cons] at h
      rcases h with h | h
      · subst h; rw [hg] at hp; cases hp
      · exact ih h p hp
    · rw [hg] at h
      by_cases hq : q.color = color
      · simp [hq] at h
      · simp [hq] at h
        subst h
        rw [hg] at hp
        cases hp
        exact hq

/-- Every element of a scan is `step j` for some in-range `j`, with every
strictly earlier square of the ray empty. -/
theorem mem_scanRay {pieces : Pieces} {color : Color} {step : Nat → Coords} :
    ∀ {fuel i m}, m ∈ scanRay pieces color step i fuel →
      ∃ j, i ≤ j ∧ j < i + fuel ∧ m = step j ∧
        ∀ l, i ≤ l → l < j → getPieceAt pieces (step l) = none := by
  intro fuel
  induction fuel with
  | zero => intro i m h; cases h
  | succ n ih =>
    intro i m h
    rw [scanRay] at h
    rcases hg : getPieceAt pieces (step i) with _ | q
    · rw [hg] at h
      simp only [List.mem_cons] at h
      rcases h with h | h
      · exact ⟨i, le_refl i, by omega, h, fun l h1 h2 => absurd (lt_of_le_of_lt h1 h2) (lt_irrefl i)⟩
      · rcases ih h with ⟨j, hj1, hj2, hj3, hj4⟩
        refine ⟨j, by omega, by omega, hj3, fun l hl1 hl2 => ?_⟩
        rcases Nat.eq_or_lt_of_le hl1 with hl | hl
        · rw [← hl]; exact hg
        · exact hj4 l hl hl2
    · rw [hg] at h
      by_cases hq : q.color = color
      · simp [hq] at h
      · simp [hq] at h
        subst h
        exact ⟨i, le_refl i, by omega, rfl,
          fun l h1 h2 => absurd (lt_of_le_of_lt h1 h2) (lt_irrefl i)⟩

/-- A scan over squares that are all empty keeps every distance. -/
theorem scanRay_all_empty {pieces : Pieces} {color : Color}
    {step : Nat → Coords} :
    ∀ {fuel i}, (∀ j, i ≤ j → j < i + fuel → getPieceAt pieces (step j) = none) →
      (scanRay pieces color step i fuel).length = fuel := by
  intro fuel
  induction fuel with
  | zero => intro i _; rfl
  | succ n ih =>
    intro i h
    rw [scanRay]
    rw [h i (le_refl i) (by omega)]
    simp only [List.length_cons]
    rw [ih fun j h1 h2 => h j (by omega) (by omega)]

/-! No generator returns a square occupied by a friendly piece. -/

theorem rookMoves_no_friendly {pieces activeDims viewDims fatigue color coords m}
    (h : m ∈ calculateRookMoves pieces activeDims viewDims fatigue color coords) :
    NotFriendly pieces color m := by
  rcases List.mem_flatMap.mp h with ⟨dim, _, hm⟩
  split at hm
  · cases hm
  · rcases List.mem_append.mp hm with hs | hs
    · exact scanRay_no_friendly hs
    · exact scanRay_no_friendly hs

theorem bishopMoves_no_friendly {pieces activeDims viewDims fatigue color coords m}
    (h : m ∈ calculateBishopMoves pieces activeDims viewDims fatigue color coords) :
    NotFriendly pieces color m := by
  rcases List.mem_flatMap.mp h with ⟨dim1, _, hm⟩
  rcases List.mem_flatMap.mp hm with ⟨dim2, _, hm2⟩
  split at hm2
  · cases hm2
  · rcases List.mem_flatMap.mp hm2 with ⟨d1, _, hm3⟩
    rcases List.mem_flatMap.mp hm3 with ⟨d2, _, hm4⟩
    exact scanRay_no_friendly hm4

theorem queenMoves_no_friendly {pieces activeDims viewDims fatigue color coords m}
    (h : m ∈ calculateQueenMoves pieces activeDims viewDims fatigue color coords) :
    NotFriendly pieces color m := by
  rcases List.mem_append.mp h with hs | hs
  · exact rookMoves_no_friendly hs
  · exact bishopMoves_no_friendly hs

theorem knightMoves_no_friendly {pieces activeDims viewDims color coords m}
    (h : m ∈ calculateKnightMoves pieces activeDims viewDims color coords) :
    NotFriendly pieces color m := by
  rcases List.mem_flatMap.mp h with ⟨dim1, _, hm⟩
  rcases List.mem_flatMap.mp hm with ⟨dim2, _, hm2⟩
  split at hm2
  · cases hm2
  · split at hm2
    · cases hm2
    · rcases List.mem_flatMap.mp hm2 with ⟨d1, _, hm3⟩
      rcases List.mem_flatMap.mp hm3 with ⟨d2, _, hm4⟩
      rcases List.mem_append.mp hm4 with hs | hs
      · exact (mem_landable_toList hs).2
      · exact (mem_landable_toList hs).2

theorem kingMoves_no_friendly {pieces activeDims viewDims color coords m}
    (h : m ∈ calculateKingMoves pieces activeDims viewDims color coords) :
    NotFriendly pieces color m :=
  mem_filterMap_landable h

theorem pawnForwardPart_no_friendly {pieces color coords m}
    (h : m ∈ pawnForwardPart pieces color coords) :
    NotFriendly pieces color m := by
  intro p hp hcol
  unfold pawnForwardPart at h
  rcases hfwd : getPieceAt pieces (bump coords 1 (pawnDirection color)) with _ | q
  · rw [hfwd] at h
    simp only [List.mem_cons] at h
    rcases h with h3 | h3
    · subst h3; rw [hfwd] at hp; cases hp
    · split at h3
      · rcases hdbl : getPieceAt pieces
          (bump coords 1 (2 * pawnDirection color)) with _ | q2
        · rw [hdbl] at h3
          simp only [List.mem_singleton] at h3
          subst h3; rw [hdbl] at hp; cases hp
        · rw [hdbl] at h3; cases h3
      · cases h3
  · rw [hfwd] at h; cases h

theorem pawnMoves_no_friendly {pieces color coords m}
    (h : m ∈ calculatePawnMoves pieces color coords) :
    NotFriendly pieces color m := by
  intro p hp hcol
  unfold calculatePawnMoves at h
  rcases List.mem_append.mp h with h1 | h1
  · rcases List.mem_append.mp h1 with h2 | h2
    · exact pawnForwardPart_no_friendly h2 p hp hcol
    · split at h2
      next hcap =>
        simp only [List.mem_singleton] at h2
        subst h2
        simp only [canCapture, hp] at hcap
        rw [hcol] at hcap
        simp at hcap
      next => cases h2
  · split at h1
    next hcap =>
      simp only [List.mem_singleton] at h1
      subst h1
      simp only [canCapture, hp] at hcap
      rw [hcol] at hcap
      simp at hcap
    next => cases h1

theorem hyperrookMultiMoves_no_friendly {pieces color fatigue coords numDims m}
    (h : m ∈ hyperrookMultiMoves pieces color fatigue coords numDims) :
    NotFriendly pieces color m := by
  rcases List.mem_flatMap.mp h with ⟨flags, _, hm⟩
  split at hm
  · rcases List.mem_flatMap.mp hm with ⟨dist, _, hm2⟩
    exact mem_filterMap_landable hm2
  · cases hm

theorem hyperrookTransportMoves_no_friendly {pieces color coords activeDims m}
    (h : m ∈ hyperrookTransportMoves pieces color coords activeDims) :
    NotFriendly pieces color m := by
  unfold hyperrookTransportMoves at h
  split at h
  · rcases List.mem_flatMap.mp h with ⟨dim, _, hm⟩
    exact mem_filterMap_landable hm
  · cases h

theorem hyperrookMoves_no_friendly {pieces activeDims viewDims fatigue color coords m}
    (h : m ∈ calculateHyperrookMoves pieces activeDims viewDims fatigue color coords) :
    NotFriendly pieces color m := by
  rcases List.mem_append.mp h with h1 | h1
  · rcases List.mem_append.mp h1 with h2 | h2
    · exact rookMoves_no_friendly h2
    · exact hyperrookMultiMoves_no_friendly h2
  · exact hyperrookTransportMoves_no_friendly h1

theorem hyperDiagonals_no_friendly {pieces color coords dims distance m}
    (h : m ∈ hyperDiagonals pieces color coords dims distance) :
    NotFriendly pieces color m := by
  unfold hyperDiagonals at h
  split at h
  · cases h
  · exact mem_filterMap_landable h

theorem dimCombosMoves_no_friendly {pieces color fatigue coords numDims}
    {current : List Nat} {start : Nat} {m}
    (h : m ∈ dimCombosMoves pieces color fatigue coords numDims current start) :
    NotFriendly pieces color m := by
  induction current, start using
    dimCombosMoves.induct pieces color fatigue coords numDims with
  | _ current start ih =>
    rw [dimCombosMoves] at h
    rcases List.mem_append.mp h with h1 | h1
    · split at h1
      · rcases List.mem_flatMap.mp h1 with ⟨dist, _, hm⟩
        exact hyperDiagonals_no_friendly hm
      · cases h1
    · split at h1
      · rcases List.mem_flatMap.mp h1 with ⟨i, hi, hm⟩
        exact ih i hm
      · cases h1

theorem hyperbishopMoves_no_friendly {pieces activeDims viewDims fatigue color coords m}
    (h : m ∈ calculateHyperbishopMoves pieces activeDims viewDims fatigue color coords) :
    NotFriendly pieces color m := by
  rcases List.mem_append.mp h with h1 | h1
  · exact bishopMoves_no_friendly h1
  · split at h1
    · exact dimCombosMoves_no_friendly h1
    · cases h1

theorem hyperknightPattern_no_friendly {pieces color coords numDims off1 off2 off3 m}
    (h : m ∈ hyperknightPattern pieces color coords numDims off1 off2 off3) :
    NotFriendly pieces color m := by
  rcases List.mem_flatMap.mp h with ⟨dim1, _, hm⟩
  rcases List.mem_flatMap.mp hm with ⟨dim2, _, hm2⟩
  split at hm2
  · cases hm2
  · rcases List.mem_flatMap.mp hm2 with ⟨dim3, _, hm3⟩
    split at hm3
    · cases hm3
    · rcases List.mem_flatMap.mp hm3 with ⟨d1, _, hm4⟩
      rcases List.mem_flatMap.mp hm4 with ⟨d2, _, hm5⟩
      rcases List.mem_flatMap.mp hm5 with ⟨d3, _, hm6⟩
      exact (mem_landable_toList hm6).2

theorem hyperknightMoves_no_friendly {pieces activeDims viewDims color coords m}
    (h : m ∈ calculateHyperknightMoves pieces activeDims viewDims color coords) :
    NotFriendly pieces color m := by
  rcases List.mem_append.mp h with h1 | h1
  · rcases List.mem_append.mp h1 with h2 | h2
    · exact knightMoves_no_friendly h2
    · exact hyperknightPattern_no_friendly h2
  · exact hyperknightPattern_no_friendly h1

/-! Restricted-view behavior of the knight and king generators. -/

/-- In a restricted view, a knight move only changes dimensions inside the
view mapping. -/
theorem knightMoves_restricted {pieces activeDims viewDims color coords m}
    (hview : viewDims.length < 3)
    (h : m ∈ calculateKnightMoves pieces activeDims viewDims color coords)
    {i : Nat} (hi : i ∉ viewDims) :
    m.getD i 0 = coords.getD i 0 := by
  rcases List.mem_flatMap.mp h with ⟨dim1, _, hm⟩
  rcases List.mem_flatMap.mp hm with ⟨dim2, _, hm2⟩
  split at hm2
  · cases hm2
  · split at hm2
    next hcond =>
      cases hm2
    next hcond =>
      rw [not_and_or] at hcond
      rcases hcond with hcond | hcond
      · exact absurd hview hcond
      · rw [not_or, not_not, not_not] at hcond
        have hne1 : i ≠ dim1 := fun e => hi (e ▸ hcond.1)
        have hne2 : i ≠ dim2 := fun e => hi (e ▸ hcond.2)
        rcases List.mem_flatMap.mp hm2 with ⟨d1, _, hm3⟩
        rcases List.mem_flatMap.mp hm3 with ⟨d2, _, hm4⟩
        rcases List.mem_append.mp hm4 with hs | hs <;>
          rw [(mem_landable_toList hs).1] <;>
          rw [bump2, getD_bump_ne _ _ _ _ hne2, getD_bump_ne _ _ _ _ hne1]

/-- Shape of the candidate lists built by the recursive king move builder:
each has exactly one entry per remaining dimension, and in a restricted
view the entry of a dimension outside the view mapping is the current
coordinate of that dimension. -/
theorem kingTails_spec {coords viewDims} :
    ∀ {fuel d m}, m ∈ kingTails coords viewDims true d fuel →
      m.length = fuel ∧
      ∀ idx, idx < fuel → (d + idx) ∉ viewDims →
        m.getD idx 0 = coords.getD (d + idx) 0 := by
  intro fuel
  induction fuel with
  | zero =>
    intro d m h
    simp only [kingTails, List.mem_singleton] at h
    subst h
    exact ⟨rfl, fun idx h1 _ => absurd h1 (Nat.not_lt_zero idx)⟩
  | succ n ih =>
    intro d m h
    rw [kingTails] at h
    split at h
    next hc =>
      rcases List.mem_map.mp h with ⟨tail, htail, rfl⟩
      rcases ih htail with ⟨hlen, hval⟩
      refine ⟨by simp [hlen], fun idx h1 h2 => ?_⟩
      match idx with
      | 0 => simp
      | idx + 1 =>
        have heq : d + 1 + idx = d + (idx + 1) := by omega
        simp only [List.getD_cons_succ]
        rw [hval idx (by omega) (by rw [heq]; exact h2), heq]
    next hc =>
      rcases List.mem_flatMap.mp h with ⟨δ, hδ, hm⟩
      rcases List.mem_map.mp hm with ⟨tail, htail, rfl⟩
      rcases ih htail with ⟨hlen, hval⟩
      refine ⟨by simp [hlen], fun idx h1 h2 => ?_⟩
      match idx with
      | 0 =>
        exact absurd ⟨rfl, by simpa using h2⟩ hc
      | idx + 1 =>
        have heq : d + 1 + idx = d + (idx + 1) := by omega
        simp only [List.getD_cons_succ]
        rw [hval idx (by omega) (by rw [heq]; exact h2), heq]

/-- In a restricted view, a king move leaves every active dimension
outside the view mapping at the current coordinate. -/
theorem kingMoves_restricted {pieces activeDims viewDims color coords m}
    (hview : viewDims.length < 3)
    (h : m ∈ calculateKingMoves pieces activeDims viewDims color coords)
    {i : Nat} (hi : i ∉ viewDims) (hlt : i < activeDims.length) :
    m.getD i 0 = coords.getD i 0 := by
  unfold calculateKingMoves at h
  rw [show decide (viewDims.length < 3) = true from decide_eq_true hview] at h
  rcases List.mem_filterMap.mp h with ⟨x, hx, hland⟩
  rcases (landable_some hland).1 with rfl
  have hx2 := List.mem_filter.mp hx
  have := (kingTails_spec hx2.1).2 i hlt (by simpa using hi)
  simpa using this

/-! Counting rook moves on an otherwise empty board. -/

theorem getPieceAt_singleton_ne (coords x : Coords) (v : PieceVal)
    (h : coords ≠ x) : getPieceAt [(coords, v)] x = none := by
  simp [getPieceAt, h]

theorem rookMoves_count_core (coords : Coords) (color : Color)
    (activeDims viewDims : List Nat)
    (hA : activeDims.length = 3) (hV : viewDims.length = 3)
    (hC : coords.length = 3) :
    (calculateRookMoves [(coords, ⟨.rook, color, coords⟩)] activeDims viewDims
      false color coords).length = 42 := by
  have hempty : ∀ (dim : Nat) (s : Int), dim < 3 → s ≠ 0 → ∀ (j : Nat),
      1 ≤ j →
      getPieceAt [(coords, (⟨.rook, color, coords⟩ : PieceVal))]
        (bump coords dim (s * (j : Int))) = none := by
    intro dim s hdim hs j hj
    apply getPieceAt_singleton_ne
    intro e
    exact bump_ne_self coords dim (s * (j : Int)) (by omega)
      (by
        intro e2
        rcases Int.mul_eq_zero.mp e2 with e3 | e3
        · exact hs e3
        · omega) e.symm
  unfold calculateRookMoves
  rw [hA]
  have hcond : ¬ (viewDims.length < 3) := by omega
  rw [show List.range 3 = [0, 1, 2] from rfl]
  simp only [List.flatMap_cons, List.flatMap_nil, List.append_nil,
    List.length_append, hcond, false_and, if_false]
  have hlen : ∀ (dim : Nat), dim < 3 →
      (scanRay [(coords, (⟨.rook, color, coords⟩ : PieceVal))] color
        (fun i => bump coords dim (i : Int)) 1
        (rookRange false dim).toNat).length = 7 ∧
      (scanRay [(coords, (⟨.rook, color, coords⟩ : PieceVal))] color
        (fun i => bump coords dim (-(i : Int))) 1
        (rookRange false dim).toNat).length = 7 := by
    intro dim hdim
    have h7 : (rookRange false dim).toNat = 7 := by rfl
    rw [h7]
    constructor
    · apply scanRay_all_empty
      intro j h1 _
      have := hempty dim 1 hdim (by omega) j h1
      simpa using this
    · apply scanRay_all_empty
      intro j h1 _
      have := hempty dim (-1) hdim (by omega) j h1
      simpa using this
  rw [(hlen 0 (by omega)).1, (hlen 0 (by omega)).2,
    (hlen 1 (by omega)).1, (hlen 1 (by omega)).2,
    (hlen 2 (by omega)).1, (hlen 2 (by omega)).2]

/-! Frame lemmas for the turn/capture state machine. -/

theorem setCapturedOf_self (st : GameState) (c : Color)
    (l : List CapturedEntry) : (st.setCapturedOf c l).capturedOf c = l := by
  cases c <;> rfl

theorem setCapturedOf_other (st : GameState) (c : Color)
    (l : List CapturedEntry) :
    (st.setCapturedOf c l).capturedOf c.other = st.capturedOf c.other := by
  cases c <;> rfl

theorem setCapturedOf_pieces (st : GameState) (c : Color)
    (l : List CapturedEntry) : (st.setCapturedOf c l).pieces = st.pieces := by
  cases c <;> rfl

theorem setCapturedOf_turn (st : GameState) (c : Color)
    (l : List CapturedEntry) :
    (st.setCapturedOf c l).currentTurn = st.currentTurn := by
  cases c <;> rfl

theorem setCapturedOf_score (st : GameState) (c : Color)
    (l : List CapturedEntry) :
    (st.setCapturedOf c l).totalComplexityScore = st.totalComplexityScore := by
  cases c <;> rfl

theorem movePiece_currentTurn (st : GameState) (sel : SelectedPiece)
    (newCoords : Coords) :
    (movePiece st sel newCoords).currentTurn = st.currentTurn := by
  unfold movePiece updateComplexityScore
  rcases getPieceAt st.pieces newCoords with _ | q
  · rfl
  · simp only []
    rw [setCapturedOf_turn]

theorem movePiece_score (st : GameState) (sel : SelectedPiece)
    (newCoords : Coords) :
    (movePiece st sel newCoords).totalComplexityScore =
      st.totalComplexityScore +
        roundedComplexity sel.coords newCoords sel.piece.type
          (getPieceAt st.pieces newCoords).isSome st.dimensionalFatigue := by
  unfold movePiece updateComplexityScore
  rcases getPieceAt st.pieces newCoords with _ | q
  · rfl
  · simp only []
    rw [setCapturedOf_score]

theorem handlePieceClick_currentTurn (st : GameState) (key : Coords) :
    (handlePieceClick st key).currentTurn = st.currentTurn := by
  unfold handlePieceClick
  split
  · rfl
  · split
    · rfl
    · rfl

theorem toggleDimension_currentTurn (st : GameState) (dimension : Nat) :
    (toggleDimension st dimension).currentTurn = st.currentTurn := by
  unfold toggleDimension
  split
  · split
    · rfl
    · rfl
  · rfl

theorem applyOp_currentTurn (st : GameState) (op : Op) :
    (applyOp st op).currentTurn =
      if isCommit st op then st.currentTurn.other else st.currentTurn := by
  cases op with
  | pieceClick key =>
    simp only [applyOp, isCommit, Bool.false_eq_true, if_false]
    exact handlePieceClick_currentTurn st key
  | tileClick coords =>
    simp only [applyOp, isCommit]
    unfold handleTileClick
    split
    next hsel => simp [hsel]
    next sel hsel =>
      by_cases hmem : coords ∈ st.validMoves
      · rw [if_pos hmem]
        simp only [hsel, Option.isSome_some, Bool.true_and,
          decide_eq_true hmem, if_true]
        show (movePiece st sel coords).currentTurn.other = st.currentTurn.other
        rw [movePiece_currentTurn]
      · rw [if_neg hmem]
        simp [hsel, hmem, deselectCurrentPiece]
  | deselectClick => rfl
  | toggleDim dimension =>
    simp only [applyOp, isCommit, Bool.false_eq_true, if_false]
    exact toggleDimension_currentTurn st dimension
  | viewAxis slot dimension => rfl
  | fatigueToggle => rfl

/-! Association-list lemmas for the occupancy dictionary. -/

theorem getPieceAt_cons (k : Coords) (v : PieceVal) (rest : Pieces)
    (c : Coords) :
    getPieceAt ((k, v) :: rest) c =
      if k = c then some v else getPieceAt rest c := rfl

theorem eraseKey_cons (k : Coords) (v : PieceVal) (rest : Pieces)
    (c : Coords) :
    eraseKey ((k, v) :: rest) c =
      if k = c then rest else (k, v) :: eraseKey rest c := rfl

theorem insertKey_cons (k : Coords) (w : PieceVal) (rest : Pieces)
    (c : Coords) (v : PieceVal) :
    insertKey ((k, w) :: rest) c v =
      if k = c then (k, v) :: rest else (k, w) :: insertKey rest c v := rfl

theorem getPieceAt_mem_keys {l : Pieces} {c : Coords} {v : PieceVal}
    (h : getPieceAt l c = some v) : c ∈ l.map Prod.fst := by
  induction l with
  | nil => cases h
  | cons kv rest ih =>
    obtain ⟨k, w⟩ := kv
    rw [getPieceAt_cons] at h
    by_cases hk : k = c
    · simp [hk]
    · rw [if_neg hk] at h
      simp [ih h]

theorem eraseKey_length {l : Pieces} {c : Coords} {v : PieceVal}
    (h : getPieceAt l c = some v) : (eraseKey l c).length + 1 = l.length := by
  induction l with
  | nil => cases h
  | cons kv rest ih =>
    obtain ⟨k, w⟩ := kv
    rw [getPieceAt_cons] at h
    rw [eraseKey_cons]
    by_cases hk : k = c
    · rw [if_pos hk]
      rfl
    · rw [if_neg hk] at h
      rw [if_neg hk]
      simp only [List.length_cons]
      rw [ih h]

theorem getPieceAt_eraseKey_ne {l : Pieces} {c c2 : Coords} (h : c2 ≠ c) :
    getPieceAt (eraseKey l c) c2 = getPieceAt l c2 := by
  induction l with
  | nil => rfl
  | cons kv rest ih =>
    obtain ⟨k, w⟩ := kv
    rw [eraseKey_cons]
    by_cases hk : k = c
    · rw [if_pos hk, getPieceAt_cons,
        if_neg (by rw [hk]; exact fun e => h e.symm)]
    · rw [if_neg hk, getPieceAt_cons, getPieceAt_cons]
      by_cases hk2 : k = c2
      · rw [if_pos hk2, if_pos hk2]
      · rw [if_neg hk2, if_neg hk2, ih]

theorem getPieceAt_eraseKey_self {l : Pieces} {c : Coords}
    (h : (l.map Prod.fst).Nodup) : getPieceAt (eraseKey l c) c = none := by
  induction l with
  | nil => rfl
  | cons kv rest ih =>
    obtain ⟨k, w⟩ := kv
    simp only [List.map_cons, List.nodup_cons] at h
    rw [eraseKey_cons]
    by_cases hk : k = c
    · rw [if_pos hk]
      subst hk
      rcases hg : getPieceAt rest k with _ | v
      · rfl
      · exact absurd (getPieceAt_mem_keys hg) h.1
    · rw [if_neg hk, getPieceAt_cons, if_neg hk]
      exact ih h.2

theorem getPieceAt_eraseKey_none {l : Pieces} {c c2 : Coords}
    (h : getPieceAt l c = none) : getPieceAt (eraseKey l c2) c = none := by
  induction l with
  | nil => rfl
  | cons kv rest ih =>
    obtain ⟨k, w⟩ := kv
    rw [getPieceAt_cons] at h
    by_cases hk : k = c
    · rw [if_pos hk] at h
      cases h
    · rw [if_neg hk] at h
      rw [eraseKey_cons]
      by_cases hk2 : k = c2
      · rw [if_pos hk2]
        exact h
      · rw [if_neg hk2, getPieceAt_cons, if_neg hk]
        exact ih h

theorem insertKey_length_of_absent {l : Pieces} {c : Coords} (v : PieceVal)
    (h : getPieceAt l c = none) :
    (insertKey l c v).length = l.length + 1 := by
  induction l with
  | nil => rfl
  | cons kv rest ih =>
    obtain ⟨k, w⟩ := kv
    rw [getPieceAt_cons] at h
    by_cases hk : k = c
    · rw [if_pos hk] at h
      cases h
    · rw [if_neg hk] at h
      rw [insertKey_cons, if_neg hk]
      simp only [List.length_cons]
      rw [ih h]

/-! Explicit forms of movePiece in the capture and non-capture cases. -/

theorem movePiece_eq_capture (st : GameState) (sel : SelectedPiece)
    (newCoords : Coords) (q : PieceVal)
    (hq : getPieceAt st.pieces newCoords = some q) :
    movePiece st sel newCoords =
    { st with
      pieces := insertKey (eraseKey (eraseKey st.pieces newCoords) sel.key)
        newCoords { sel.piece with coords := newCoords },
      capturedWhite :=
        if sel.piece.color = .white then
          st.capturedWhite ++ [CapturedEntry.mk q.type q.color]
        else st.capturedWhite,
      capturedBlack :=
        if sel.piece.color = .black then
          st.capturedBlack ++ [CapturedEntry.mk q.type q.color]
        else st.capturedBlack,
      lastMoveComplexity :=
        roundedComplexity sel.coords newCoords sel.piece.type true
          st.dimensionalFatigue,
      totalComplexityScore := st.totalComplexityScore +
        roundedComplexity sel.coords newCoords sel.piece.type true
          st.dimensionalFatigue } := by
  unfold movePiece updateComplexityScore
  rw [hq]
  cases hc : sel.piece.color <;>
    simp [GameState.setCapturedOf, GameState.capturedOf, hc]

theorem movePiece_eq_noncapture (st : GameState) (sel : SelectedPiece)
    (newCoords : Coords)
    (hq : getPieceAt st.pieces newCoords = none) :
    movePiece st sel newCoords =
    { st with
      pieces := insertKey (eraseKey st.pieces sel.key) newCoords
        { sel.piece with coords := newCoords },
      lastMoveComplexity :=
        roundedComplexity sel.coords newCoords sel.piece.type false
          st.dimensionalFatigue,
      totalComplexityScore := st.totalComplexityScore +
        roundedComplexity sel.coords newCoords sel.piece.type false
          st.dimensionalFatigue } := by
  unfold movePiece updateComplexityScore
  rw [hq]
  rfl

theorem movePiece_capture_spec (st : GameState) (sel : SelectedPiece)
    (newCoords : Coords) (pv q : PieceVal)
    (hnodup : (st.pieces.map Prod.fst).Nodup)
    (hsel : getPieceAt st.pieces sel.key = some pv)
    (hne : sel.key ≠ newCoords)
    (hq : getPieceAt st.pieces newCoords = some q) :
    (movePiece st sel newCoords).pieces.length + 1 = st.pieces.length ∧
    (movePiece st sel newCoords).capturedOf sel.piece.color =
      st.capturedOf sel.piece.color ++ [CapturedEntry.mk q.type q.color] ∧
    (movePiece st sel newCoords).capturedOf sel.piece.color.other =
      st.capturedOf sel.piece.color.other := by
  have hsel2 : getPieceAt (eraseKey st.pieces newCoords) sel.key = some pv := by
    rw [getPieceAt_eraseKey_ne hne]
    exact hsel
  have habs : getPieceAt (eraseKey (eraseKey st.pieces newCoords) sel.key)
      newCoords = none :=
    getPieceAt_eraseKey_none (getPieceAt_eraseKey_self hnodup)
  have l1 := eraseKey_length hq
  have l2 := eraseKey_length hsel2
  have l3 := insertKey_length_of_absent
    ({ sel.piece with coords := newCoords }) habs
  rw [movePiece_eq_capture st sel newCoords q hq]
  refine ⟨?_, ?_, ?_⟩
  · show (insertKey (eraseKey (eraseKey st.pieces newCoords) sel.key) newCoords
      { sel.piece with coords := newCoords }).length + 1 = st.pieces.length
    omega
  · cases hc : sel.piece.color <;> simp [GameState.capturedOf, Color.other]
  · cases hc : sel.piece.color <;> simp [GameState.capturedOf, Color.other]

theorem movePiece_noncapture_spec (st : GameState) (sel : SelectedPiece)
    (newCoords : Coords) (pv : PieceVal)
    (hsel : getPieceAt st.pieces sel.key = some pv)
    (hq : getPieceAt st.pieces newCoords = none) :
    (movePiece st sel newCoords).pieces.length = st.pieces.length ∧
    ∀ c, (movePiece st sel newCoords).capturedOf c = st.capturedOf c := by
  have habs : getPieceAt (eraseKey st.pieces sel.key) newCoords = none :=
    getPieceAt_eraseKey_none hq
  have l2 := eraseKey_length hsel
  have l3 := insertKey_length_of_absent
    ({ sel.piece with coords := newCoords }) habs
  rw [movePiece_eq_noncapture st sel newCoords hq]
  refine ⟨?_, fun c => by cases c <;> rfl⟩
  show (insertKey (eraseKey st.pieces sel.key) newCoords
    { sel.piece with coords := newCoords }).length = st.pieces.length
  omega

/-! Turn alternation over event sequences. -/

theorem Color.other_other (c : Color) : c.other.other = c := by
  cases c <;> rfl

theorem applyOps_turn_parity (ops : List Op) :
    ∀ st : GameState,
      (applyOps st ops).currentTurn =
        if countCommits st ops % 2 = 0 then st.currentTurn
        else st.currentTurn.other := by
  induction ops with
  | nil => intro st; rfl
  | cons op rest ih =>
    intro st
    show (applyOps (applyOp st op) rest).currentTurn = _
    rw [ih (applyOp st op)]
    rw [applyOp_currentTurn]
    show _ = if ((if isCommit st op then 1 else 0) +
      countCommits (applyOp st op) rest) % 2 = 0 then _ else _
    by_cases hcom : isCommit st op = true
    · simp only [hcom, if_true]
      by_cases hn : countCommits (applyOp st op) rest % 2 = 0
      · rw [if_pos hn, if_neg (by omega)]
      · rw [if_neg hn, if_pos (by omega), Color.other_other]
    · simp only [Bool.not_eq_true] at hcom
      simp only [hcom, Bool.false_eq_true, if_false, Nat.zero_add]

/-! Blocking along scan directions for the sliding generators. -/

theorem sign_cancel {s t : Int} {j i : Nat} (hs : s = 1 ∨ s = -1)
    (ht : t = 1 ∨ t = -1) (hj : 1 ≤ j) (hi : 1 ≤ i)
    (h : s * (j : Int) = t * (i : Int)) : s = t ∧ i = j := by
  rcases hs with rfl | rfl <;> rcases ht with rfl | rfl <;>
    exact ⟨by omega, by omega⟩

theorem getD_bump2_fst (coords : Coords) (dim1 dim2 : Nat) (d1 d2 : Int)
    (hne : dim1 ≠ dim2) (h1 : dim1 < coords.length) :
    (bump2 coords dim1 dim2 d1 d2).getD dim1 0 = coords.getD dim1 0 + d1 := by
  rw [bump2, getD_bump_ne _ _ _ _ hne, getD_bump_self _ _ _ h1]

theorem getD_bump2_snd (coords : Coords) (dim1 dim2 : Nat) (d1 d2 : Int)
    (hne : dim1 ≠ dim2) (h2 : dim2 < coords.length) :
    (bump2 coords dim1 dim2 d1 d2).getD dim2 0 = coords.getD dim2 0 + d2 := by
  rw [bump2, getD_bump_self _ _ _ (by rw [bump_length]; exact h2),
    getD_bump_ne _ _ _ _ (fun e => hne e.symm)]

theorem getD_bump2_other (coords : Coords) (dim1 dim2 : Nat) (d1 d2 : Int)
    (idx : Nat) (h1 : idx ≠ dim1) (h2 : idx ≠ dim2) :
    (bump2 coords dim1 dim2 d1 d2).getD idx 0 = coords.getD idx 0 := by
  rw [bump2, getD_bump_ne _ _ _ _ h2, getD_bump_ne _ _ _ _ h1]

/-- Decomposition of rook-move membership: every rook move lies on a
single-dimension ray at some distance `i ≥ 1`, with every strictly nearer
square of that ray empty. -/
theorem mem_rookMoves {pieces : Pieces} {activeDims viewDims : List Nat}
    {fatigue : Bool} {color : Color} {coords m : Coords}
    (h : m ∈ calculateRookMoves pieces activeDims viewDims fatigue color coords) :
    ∃ (dim : Nat) (s : Int) (i : Nat), dim < activeDims.length ∧
      (s = 1 ∨ s = -1) ∧ 1 ≤ i ∧ m = bump coords dim (s * i) ∧
      ∀ l, 1 ≤ l → l < i →
        getPieceAt pieces (bump coords dim (s * l)) = none := by
  rcases List.mem_flatMap.mp h with ⟨dim, hdim, hm⟩
  have hdim2 : dim < activeDims.length := List.mem_range.mp hdim
  split at hm
  · cases hm
  · rcases List.mem_append.mp hm with hs | hs
    · rcases mem_scanRay hs with ⟨j, hj1, hj2, hj3, hj4⟩
      refine ⟨dim, 1, j, hdim2, Or.inl rfl, hj1, by simpa using hj3,
        fun l hl1 hl2 => ?_⟩
      have := hj4 l hl1 hl2
      simpa using this
    · rcases mem_scanRay hs with ⟨j, hj1, hj2, hj3, hj4⟩
      refine ⟨dim, -1, j, hdim2, Or.inr rfl, hj1, ?_, fun l hl1 hl2 => ?_⟩
      · rw [hj3]
        congr 1
        omega
      · have := hj4 l hl1 hl2
        have he : -(l : Int) = -1 * l := by omega
        rw [he] at this
        exact this

/-- Decomposition of bishop-move membership: every bishop move lies on a
two-dimension diagonal at some distance `i ≥ 1`, with every strictly
nearer square of that diagonal empty. -/
theorem mem_bishopMoves {pieces : Pieces} {activeDims viewDims : List Nat}
    {fatigue : Bool} {color : Color} {coords m : Coords}
    (h : m ∈ calculateBishopMoves pieces activeDims viewDims fatigue color coords) :
    ∃ (dim1 dim2 : Nat) (s1 s2 : Int) (i : Nat),
      dim1 < dim2 ∧ dim2 < activeDims.length ∧
      (s1 = 1 ∨ s1 = -1) ∧ (s2 = 1 ∨ s2 = -1) ∧ 1 ≤ i ∧
      m = bump2 coords dim1 dim2 (s1 * i) (s2 * i) ∧
      ∀ l, 1 ≤ l → l < i →
        getPieceAt pieces (bump2 coords dim1 dim2 (s1 * l) (s2 * l)) = none := by
  rcases List.mem_flatMap.mp h with ⟨dim1, hdim1, hm⟩
  have hdim1b : dim1 < activeDims.length := List.mem_range.mp hdim1
  rcases List.mem_flatMap.mp hm with ⟨dim2, hdim2, hm2⟩
  have hdim2b := List.mem_range'_1.mp hdim2
  split at hm2
  · cases hm2
  · rcases List.mem_flatMap.mp hm2 with ⟨d1, hd1, hm3⟩
    rcases List.mem_flatMap.mp hm3 with ⟨d2, hd2, hm4⟩
    have hd1b : d1 = -1 ∨ d1 = 1 := by simpa using hd1
    have hd2b : d2 = -1 ∨ d2 = 1 := by simpa using hd2
    rcases mem_scanRay hm4 with ⟨j, hj1, hj2, hj3, hj4⟩
    exact ⟨dim1, dim2, d1, d2, j, by omega, by omega, hd1b.symm, hd2b.symm,
      hj1, hj3, hj4⟩

/-- Rook scans stop at the first occupied square: an occupied square at
distance `k` on a ray excludes every rook move farther out on that ray. -/
theorem rook_blocking (pieces : Pieces) (activeDims viewDims : List Nat)
    (fatigue : Bool) (color : Color) (coords : Coords) (dim : Nat) (s : Int)
    (k j : Nat) (hdim : dim < activeDims.length)
    (hlen : activeDims.length ≤ coords.length) (hs : s = 1 ∨ s = -1)
    (hk : 1 ≤ k) (hkj : k < j)
    (hocc : getPieceAt pieces (bump coords dim (s * k)) ≠ none) :
    bump coords dim (s * j) ∉
      calculateRookMoves pieces activeDims viewDims fatigue color coords := by
  intro hmem
  rcases mem_rookMoves hmem with ⟨dim', s', i, hdim', hs', hi, heq, hemp⟩
  have hdl : dim < coords.length := lt_of_lt_of_le hdim hlen
  have hdl' : dim' < coords.length := lt_of_lt_of_le hdim' hlen
  by_cases hdd : dim' = dim
  · subst hdd
    have h1 := getD_bump_self coords dim' (s * j) hdl'
    have h2 := getD_bump_self coords dim' (s' * i) hdl'
    rw [heq, h2] at h1
    have hst : s' * (i : Int) = s * (j : Int) := by omega
    rcases sign_cancel hs' hs hi (by omega) hst with ⟨rfl, rfl⟩
    exact hocc (hemp k hk (by omega))
  · have h1 := getD_bump_self coords dim (s * j) hdl
    rw [heq] at h1
    rw [getD_bump_ne coords dim' (s' * i) dim (fun e => hdd e.symm)] at h1
    rcases hs with rfl | rfl <;> omega

/-- Bishop scans stop at the first occupied square: an occupied square at
distance `k` on a diagonal excludes every bishop move farther out on that
diagonal. -/
theorem bishop_blocking (pieces : Pieces) (activeDims viewDims : List Nat)
    (fatigue : Bool) (color : Color) (coords : Coords) (dim1 dim2 : Nat)
    (s1 s2 : Int) (k j : Nat) (hdd : dim1 < dim2)
    (hdim : dim2 < activeDims.length)
    (hlen : activeDims.length ≤ coords.length)
    (hs1 : s1 = 1 ∨ s1 = -1) (hs2 : s2 = 1 ∨ s2 = -1)
    (hk : 1 ≤ k) (hkj : k < j)
    (hocc : getPieceAt pieces (bump2 coords dim1 dim2 (s1 * k) (s2 * k)) ≠ none) :
    bump2 coords dim1 dim2 (s1 * j) (s2 * j) ∉
      calculateBishopMoves pieces activeDims viewDims fatigue color coords := by
  intro hmem
  rcases mem_bishopMoves hmem with
    ⟨e1, e2, t1, t2, i, hee, he2, ht1, ht2, hi, heq, hemp⟩
  have h1l : dim1 < coords.length := by omega
  have h2l : dim2 < coords.length := by omega
  have he1l : e1 < coords.length := by omega
  have he2l : e2 < coords.length := by omega
  have hne : dim1 ≠ dim2 := by omega
  have hnee : e1 ≠ e2 := by omega
  -- dim1 is changed on the left, so it must be one of e1, e2
  have hmem1 : dim1 = e1 ∨ dim1 = e2 := by
    by_contra hno
    rw [not_or] at hno
    have ha := getD_bump2_fst coords dim1 dim2 (s1 * j) (s2 * j) hne h1l
    rw [heq, getD_bump2_other coords e1 e2 (t1 * i) (t2 * i) dim1
      hno.1 hno.2] at ha
    rcases hs1 with rfl | rfl <;> omega
  have hmem2 : dim2 = e1 ∨ dim2 = e2 := by
    by_contra hno
    rw [not_or] at hno
    have ha := getD_bump2_snd coords dim1 dim2 (s1 * j) (s2 * j) hne h2l
    rw [heq, getD_bump2_other coords e1 e2 (t1 * i) (t2 * i) dim2
      hno.1 hno.2] at ha
    rcases hs2 with rfl | rfl <;> omega
  have he1 : dim1 = e1 := by omega
  have he2d : dim2 = e2 := by omega
  subst he1
  subst he2d
  have ha := getD_bump2_fst coords dim1 dim2 (s1 * j) (s2 * j) hne h1l
  rw [heq, getD_bump2_fst coords dim1 dim2 (t1 * i) (t2 * i) hne h1l] at ha
  have hb := getD_bump2_snd coords dim1 dim2 (s1 * j) (s2 * j) hne h2l
  rw [heq, getD_bump2_snd coords dim1 dim2 (t1 * i) (t2 * i) hne h2l] at hb
  have hprod1 : t1 * (i : Int) = s1 * (j : Int) := add_left_cancel ha
  have hprod2 : t2 * (i : Int) = s2 * (j : Int) := add_left_cancel hb
  rcases sign_cancel ht1 hs1 hi (by omega) hprod1 with ⟨hst1, hij⟩
  rcases sign_cancel ht2 hs2 hi (by omega) hprod2 with ⟨hst2, _⟩
  rw [← hst1, ← hst2] at hocc
  exact hocc (hemp k hk (by omega))

/-- A far point of a single-dimension ray is not among the bishop moves:
bishop moves change exactly two components. -/
theorem rookdir_not_bishop (pieces : Pieces) (activeDims viewDims : List Nat)
    (fatigue : Bool) (color : Color) (coords : Coords) (dim : Nat) (s : Int)
    (j : Nat) (hlen : activeDims.length ≤ coords.length)
    (hdim : dim < coords.length) (hs : s = 1 ∨ s = -1) (hj : 1 ≤ j) :
    bump coords dim (s * j) ∉
      calculateBishopMoves pieces activeDims viewDims fatigue color coords := by
  intro hmem
  rcases mem_bishopMoves hmem with
    ⟨e1, e2, t1, t2, i, hee, he2, ht1, ht2, hi, heq, hemp⟩
  have he1l : e1 < coords.length := by omega
  have he2l : e2 < coords.length := by omega
  have hnee : e1 ≠ e2 := by omega
  by_cases h1 : dim = e1
  · subst h1
    have ha := getD_bump2_snd coords dim e2 (t1 * i) (t2 * i) hnee he2l
    rw [← heq, getD_bump_ne coords dim (s * j) e2 (fun e => hnee e.symm)] at ha
    rcases ht2 with rfl | rfl <;> omega
  · have ha := getD_bump2_fst coords e1 e2 (t1 * i) (t2 * i) hnee he1l
    rw [← heq, getD_bump_ne coords dim (s * j) e1 (fun e => h1 e.symm)] at ha
    rcases ht1 with rfl | rfl <;> omega

/-- A far point of a two-dimension diagonal is not among the rook moves:
rook moves change exactly one component. -/
theorem bishopdir_not_rook (pieces : Pieces) (activeDims viewDims : List Nat)
    (fatigue : Bool) (color : Color) (coords : Coords) (dim1 dim2 : Nat)
    (s1 s2 : Int) (j : Nat) (hdd : dim1 < dim2)
    (hlen : activeDims.length ≤ coords.length) (hdim : dim2 < coords.length)
    (hs1 : s1 = 1 ∨ s1 = -1) (hs2 : s2 = 1 ∨ s2 = -1) (hj : 1 ≤ j) :
    bump2 coords dim1 dim2 (s1 * j) (s2 * j) ∉
      calculateRookMoves pieces activeDims viewDims fatigue color coords := by
  intro hmem
  rcases mem_rookMoves hmem with ⟨dim', s', i, hdim', hs', hi, heq, hemp⟩
  have hdl' : dim' < coords.length := by omega
  have h1l : dim1 < coords.length := by omega
  have hne : dim1 ≠ dim2 := by omega
  by_cases h1 : dim' = dim1
  · subst h1
    have ha := getD_bump2_snd coords dim' dim2 (s1 * j) (s2 * j) hne hdim
    rw [heq, getD_bump_ne coords dim' (s' * i) dim2 (fun e => hne e.symm)] at ha
    rcases hs2 with rfl | rfl <;> omega
  · have ha := getD_bump2_fst coords dim1 dim2 (s1 * j) (s2 * j) hne h1l
    rw [heq, getD_bump_ne coords dim' (s' * i) dim1 (fun e => h1 e.symm)] at ha
    rcases hs1 with rfl | rfl <;> omega

theorem calculateMoveComplexity_eq_amended (fromCoords toCoords : List Int)
    (ptype : PieceType) (isCapture fatigue : Bool) :
    calculateMoveComplexity fromCoords toCoords ptype isCapture fatigue =
      specAmendedMoveComplexity fromCoords toCoords ptype isCapture fatigue := by
  simp only [calculateMoveComplexity, specAmendedMoveComplexity]
  split_ifs <;> exact Prod.ext (by push_cast; ring) (by push_cast; ring)

theorem roundedComplexity_eq_amended (fromCoords toCoords : List Int)
    (ptype : PieceType) (isCapture fatigue : Bool) :
    roundedComplexity fromCoords toCoords ptype isCapture fatigue =
      specAmendedRounded fromCoords toCoords ptype isCapture fatigue := by
  unfold roundedComplexity specAmendedRounded
  rw [calculateMoveComplexity_eq_amended]

/-! Behavior of toggleDimension on the piece collection. -/

theorem updateBoardVisualization_values (st : GameState) :
    (updateBoardVisualization st).pieces.map Prod.snd =
      st.pieces.map Prod.snd := by
  simp [updateBoardVisualization, List.map_map, Function.comp]

theorem toggleDimension_values (st : GameState) (dimension : Nat) :
    (toggleDimension st dimension).pieces.map Prod.snd =
      st.pieces.map Prod.snd := by
  unfold toggleDimension
  split
  · split
    · rfl
    · exact updateBoardVisualization_values _
  · exact updateBoardVisualization_values _

theorem insertSorted_length (d : Nat) (l : List Nat) :
    (insertSorted d l).length = l.length + 1 := by
  induction l with
  | nil => rfl
  | cons x xs ih =>
    unfold insertSorted
    split
    · rfl
    · simp only [List.length_cons, ih]

theorem sortNat_length (l : List Nat) : (sortNat l).length = l.length := by
  induction l with
  | nil => rfl
  | cons x xs ih =>
    show (insertSorted x (sortNat xs)).length = _
    rw [insertSorted_length, ih]
    rfl

theorem toggleDimension_activeDims_add (st : GameState) (dimension : Nat)
    (h : dimension ∉ st.activeDimensions) :
    (toggleDimension st dimension).activeDimensions.length =
      st.activeDimensions.length + 1 := by
  unfold toggleDimension
  rw [if_neg h]
  show (sortNat (st.activeDimensions ++ [dimension])).length = _
  rw [sortNat_length]
  simp

theorem toggleDimension_activeDims_remove (st : GameState) (dimension : Nat)
    (h : dimension ∈ st.activeDimensions)
    (h3 : ¬ st.activeDimensions.length ≤ 3) :
    (toggleDimension st dimension).activeDimensions.length + 1 =
      st.activeDimensions.length := by
  unfold toggleDimension
  rw [if_pos h, if_neg h3]
  show (st.activeDimensions.erase dimension).length + 1 = _
  rw [List.length_erase_of_mem h]
  have := List.length_pos.mpr (List.ne_nil_of_mem h)
  omega

theorem toggleDimension_refuse (st : GameState) (dimension : Nat)
    (h : dimension ∈ st.activeDimensions)
    (h3 : st.activeDimensions.length ≤ 3) :
    toggleDimension st dimension = st := by
  unfold toggleDimension
  rw [if_pos h, if_pos h3]

/-! Validation of the exact rounding pipeline against real arithmetic:
`floorAddSqrt` and `roundTo1` compute precisely the floor-based rounding
of `a + b * Real.sqrt m` that models `Math.round((a + b*Math.sqrt m)*10)/10`. -/

theorem floor_intCast_add_div (z C : Int) (hC : 0 < C) (f : ℝ)
    (hf0 : 0 ≤ f) (hf1 : f < 1) :
    ⌊((z : ℝ) + f) / (C : ℝ)⌋ = z.ediv C := by
  have hCne : (C : ℝ) ≠ 0 := by positivity
  have hCR : (0 : ℝ) < (C : ℝ) := by positivity
  have hzd := Int.ediv_add_emod z C
  have hr0 : (0 : Int) ≤ z % C := Int.emod_nonneg z (by omega)
  have hrC : z % C < C := Int.emod_lt_of_pos z hC
  rw [Int.floor_eq_iff]
  constructor
  · rw [le_div_iff₀ hCR]
    have : ((z : ℝ)) = C * (z.ediv C) + (z % C : Int) := by
      exact_mod_cast congrArg (fun t : Int => (t : ℝ)) hzd.symm
    rw [this]
    have : (0 : ℝ) ≤ ((z % C : Int) : ℝ) + f := by
      have : (0 : ℝ) ≤ ((z % C : Int) : ℝ) := by exact_mod_cast hr0
      linarith
    nlinarith [this]
  · rw [div_lt_iff₀ hCR]
    have hzr : ((z : ℝ)) = C * (z.ediv C) + (z % C : Int) := by
      exact_mod_cast congrArg (fun t : Int => (t : ℝ)) hzd.symm
    rw [hzr]
    have h1 : ((z % C : Int) : ℝ) + f < (C : ℝ) := by
      have h2 : ((z % C : Int) : ℝ) ≤ (C : ℝ) - 1 := by
        have : z % C ≤ C - 1 := by omega
        exact_mod_cast this
      linarith
    nlinarith [h1]

theorem floor_nat_sqrt (N : Nat) : ⌊Real.sqrt (N : ℝ)⌋ = (Nat.sqrt N : Int) := by
  rw [Int.floor_eq_iff]
  constructor
  · push_cast
    rw [Real.le_sqrt (by positivity) (by positivity)]
    exact_mod_cast Nat.sqrt_le' N
  · push_cast
    rw [Real.sqrt_lt' (by positivity)]
    exact_mod_cast Nat.lt_succ_sqrt' N

theorem floorAddSqrt_eq (c q : ℚ) (hq : 0 ≤ q) :
    floorAddSqrt c q = ⌊(c : ℝ) + Real.sqrt (q : ℝ)⌋ := by
  have hcd : (0 : ℝ) < (c.den : ℝ) := by exact_mod_cast c.pos
  have hqd : (0 : ℝ) < (q.den : ℝ) := by exact_mod_cast q.pos
  have hqn : (0 : Int) ≤ q.num := Rat.num_nonneg.mpr hq
  set N : Nat := (c.den * c.den * q.den) * q.num.toNat
  set C : Int := (c.den : Int) * (q.den : Int)
  set A : Int := c.num * (q.den : Int)
  have hCpos : (0 : Int) < C := by positivity
  have hCR : (0 : ℝ) < (C : ℝ) := by exact_mod_cast hCpos
  have hC : (C : ℝ) = (c.den : ℝ) * (q.den : ℝ) := by norm_cast
  have hA : ((A : Int) : ℝ) = (c.num : ℝ) * (q.den : ℝ) := by norm_cast
  have htn : ((q.num.toNat : ℕ) : ℝ) = (q.num : ℝ) := by
    exact_mod_cast Int.toNat_of_nonneg hqn
  -- N = C^2 * q over the reals
  have hN : (N : ℝ) = (C : ℝ) ^ 2 * (q : ℝ) := by
    show (((c.den * c.den * q.den) * q.num.toNat : Nat) : ℝ) = _
    rw [Rat.cast_def, hC]
    push_cast [htn]
    field_simp
    ring
  -- hence sqrt N = C * sqrt q
  have hsqrtN : Real.sqrt (N : ℝ) = (C : ℝ) * Real.sqrt (q : ℝ) := by
    rw [hN, Real.sqrt_mul (by positivity), Real.sqrt_sq hCR.le]
  -- the value is (A + sqrt N) / C
  have hval : (c : ℝ) + Real.sqrt (q : ℝ) = ((A : ℝ) + Real.sqrt (N : ℝ)) / (C : ℝ) := by
    rw [hsqrtN, hC, hA, Rat.cast_def]
    field_simp
    ring
  -- split sqrt N into integer part and fractional part
  have hs0 : ((Nat.sqrt N : Int) : ℝ) ≤ Real.sqrt (N : ℝ) := by
    push_cast
    rw [Real.le_sqrt (by positivity) (by positivity)]
    exact_mod_cast Nat.sqrt_le' N
  have hs1 : Real.sqrt (N : ℝ) < ((Nat.sqrt N : Int) : ℝ) + 1 := by
    push_cast
    rw [Real.sqrt_lt' (by positivity)]
    exact_mod_cast Nat.lt_succ_sqrt' N
  have hsplit : (A : ℝ) + Real.sqrt (N : ℝ) =
      ((A + (Nat.sqrt N : Int) : Int) : ℝ) +
        (Real.sqrt (N : ℝ) - ((Nat.sqrt N : Int) : ℝ)) := by
    push_cast
    ring
  rw [hval, hsplit, floor_intCast_add_div (A + (Nat.sqrt N : Int)) C hCpos _
    (by linarith) (by linarith)]
  rfl

theorem roundTo1_eq (a b : ℚ) (m : Nat) (hb : 0 ≤ b) :
    ((roundTo1 a b m : ℚ) : ℝ) =
      (⌊10 * ((a : ℝ) + (b : ℝ) * Real.sqrt (m : ℝ)) + 1 / 2⌋ : Int) / 10 := by
  unfold roundTo1
  have hq : (0 : ℚ) ≤ (10 * b) * (10 * b) * (m : ℚ) := by positivity
  rw [floorAddSqrt_eq _ _ hq]
  have hbR : (0 : ℝ) ≤ (b : ℝ) := by exact_mod_cast hb
  have hsq : Real.sqrt (10 * (b : ℝ) * (10 * (b : ℝ)) * (m : ℝ)) =
      10 * (b : ℝ) * Real.sqrt (m : ℝ) := by
    rw [show (10 * (b : ℝ) * (10 * (b : ℝ)) * (m : ℝ)) =
      (10 * (b : ℝ)) ^ 2 * (m : ℝ) from by ring]
    rw [Real.sqrt_mul (by positivity), Real.sqrt_sq (by positivity)]
  push_cast
  rw [hsq]
  congr 2
  ring

/-! The claims. -/

/-- C1 counterexample: the hyperrook multi-dimension scan does not stop at
occupied squares.  On a board whose only piece is a white pawn at [1,1,0]
(distance 1 from the origin along the diagonal direction (1,1,0)), the
white hyperrook at the origin is still offered [2,2,0], the destination at
distance 2 along that exact direction. -/
theorem hyperrook_passes_blocker_cex :
    addScaled [0, 0, 0] [1, 1, 0] 1 = [1, 1, 0] ∧
    addScaled [0, 0, 0] [1, 1, 0] 2 = [2, 2, 0] ∧
    getPieceAt blockerBoard [1, 1, 0] =
      some ⟨.pawn, .white, [1, 1, 0]⟩ ∧
    [2, 2, 0] ∈ calculateHyperrookMoves blockerBoard [0, 1, 2] [0, 1, 2]
      false .white [0, 0, 0] := by
  refine ⟨rfl, rfl, rfl, ?_⟩
  decide

/-- C1 (amended): for the rook, bishop and queen generators, every scan
direction stops at the first occupied square: if the square at distance
`k ≥ 1` along a single-dimension ray (respectively a two-dimension
diagonal) is occupied, the generated move list contains no destination at
any distance `j > k` along that exact direction.  (The hyperrook and
hyperbishop multi-dimension scans and the hyperrook transport moves check
only the landing square and may pass occupied squares, as the
counterexample shows.) -/
theorem sliding_blocking_rook_bishop_queen :
    (∀ (pieces : Pieces) (activeDims viewDims : List Nat) (fatigue : Bool)
        (color : Color) (coords : Coords) (dim : Nat) (s : Int) (k j : Nat),
      dim < activeDims.length → activeDims.length ≤ coords.length →
      (s = 1 ∨ s = -1) → 1 ≤ k → k < j →
      getPieceAt pieces (bump coords dim (s * k)) ≠ none →
      bump coords dim (s * j) ∉
        calculateRookMoves pieces activeDims viewDims fatigue color coords ∧
      bump coords dim (s * j) ∉
        calculateQueenMoves pieces activeDims viewDims fatigue color coords) ∧
    (∀ (pieces : Pieces) (activeDims viewDims : List Nat) (fatigue : Bool)
        (color : Color) (coords : Coords) (dim1 dim2 : Nat) (s1 s2 : Int)
        (k j : Nat),
      dim1 < dim2 → dim2 < activeDims.length →
      activeDims.length ≤ coords.length →
      (s1 = 1 ∨ s1 = -1) → (s2 = 1 ∨ s2 = -1) → 1 ≤ k → k < j →
      getPieceAt pieces (bump2 coords dim1 dim2 (s1 * k) (s2 * k)) ≠ none →
      bump2 coords dim1 dim2 (s1 * j) (s2 * j) ∉
        calculateBishopMoves pieces activeDims viewDims fatigue color coords ∧
      bump2 coords dim1 dim2 (s1 * j) (s2 * j) ∉
        calculateQueenMoves pieces activeDims viewDims fatigue color coords) := by
  constructor
  · intro pieces activeDims viewDims fatigue color coords dim s k j hdim hlen
      hs hk hkj hocc
    refine ⟨rook_blocking pieces activeDims viewDims fatigue color coords dim
      s k j hdim hlen hs hk hkj hocc, fun hq => ?_⟩
    rcases List.mem_append.mp hq with hq | hq
    · exact rook_blocking pieces activeDims viewDims fatigue color coords dim
        s k j hdim hlen hs hk hkj hocc hq
    · exact rookdir_not_bishop pieces activeDims viewDims fatigue color coords
        dim s j hlen (by omega) hs (by omega) hq
  · intro pieces activeDims viewDims fatigue color coords dim1 dim2 s1 s2 k j
      hdd hdim hlen hs1 hs2 hk hkj hocc
    refine ⟨bishop_blocking pieces activeDims viewDims fatigue color coords
      dim1 dim2 s1 s2 k j hdd hdim hlen hs1 hs2 hk hkj hocc, fun hq => ?_⟩
    rcases List.mem_append.mp hq with hq | hq
    · exact bishopdir_not_rook pieces activeDims viewDims fatigue color coords
        dim1 dim2 s1 s2 j hdd hlen (by omega) hs1 hs2 (by omega) hq
    · exact bishop_blocking pieces activeDims viewDims fatigue color coords
        dim1 dim2 s1 s2 k j hdd hdim hlen hs1 hs2 hk hkj hocc hq

/-- C1 witness: a white pawn at [2,0,0] blocks the white rook at the
origin, so [3,0,0] is generated neither by the rook nor the queen
generator. -/
theorem sliding_blocking_witness :
    bump [0, 0, 0] 0 ((1 : Int) * 3) ∉
      calculateRookMoves rookBlockBoard [0, 1, 2] [0, 1, 2] false .white
        [0, 0, 0] ∧
    bump [0, 0, 0] 0 ((1 : Int) * 3) ∉
      calculateQueenMoves rookBlockBoard [0, 1, 2] [0, 1, 2] false .white
        [0, 0, 0] :=
  sliding_blocking_rook_bishop_queen.1 rookBlockBoard [0, 1, 2] [0, 1, 2]
    false .white [0, 0, 0] 0 1 2 3 (by decide) (by decide) (Or.inl rfl)
    (by decide) (by decide) (by decide)

/-- C2 counterexample: toggling dimension 3 on raises the active-dimension
count to 4, but the piece created with a 3-tuple keeps a coordinate tuple
of length 3: no padding pass runs. -/
theorem toggle_dimension_no_padding_cex :
    (toggleDimension pawnState 3).activeDimensions.length = 4 ∧
    ((toggleDimension pawnState 3).pieces.map fun kv => kv.2.coords.length) =
      [3] ∧
    ¬ (∀ kv ∈ (toggleDimension pawnState 3).pieces,
        kv.2.coords.length =
          (toggleDimension pawnState 3).activeDimensions.length) := by
  refine ⟨by decide, by decide, ?_⟩
  intro hall
  have := hall ([0, 0, 0], ⟨.pawn, .white, [0, 0, 0]⟩) (by decide)
  revert this
  decide

/-- C2 (amended): toggleDimension re-creates every piece from its stored
type, color and coordinates, leaving every coordinate tuple unchanged (no
padding or truncation); adding a dimension grows the active-dimension list
by one, removing one shrinks it by one, and removal is refused when only 3
dimensions are active. -/
theorem toggle_dimension_preserves_pieces :
    ∀ (st : GameState) (dimension : Nat),
      (toggleDimension st dimension).pieces.map Prod.snd =
        st.pieces.map Prod.snd ∧
      (dimension ∉ st.activeDimensions →
        (toggleDimension st dimension).activeDimensions.length =
          st.activeDimensions.length + 1) ∧
      (dimension ∈ st.activeDimensions →
        ¬ st.activeDimensions.length ≤ 3 →
        (toggleDimension st dimension).activeDimensions.length + 1 =
          st.activeDimensions.length) ∧
      (dimension ∈ st.activeDimensions → st.activeDimensions.length ≤ 3 →
        toggleDimension st dimension = st) :=
  fun st dimension =>
    ⟨toggleDimension_values st dimension,
     toggleDimension_activeDims_add st dimension,
     toggleDimension_activeDims_remove st dimension,
     toggleDimension_refuse st dimension⟩

/-- C2 witness: toggling dimension 3 on the concrete one-pawn state keeps
the piece values and adds one active dimension. -/
theorem toggle_dimension_preserves_witness :
    (toggleDimension pawnState 3).pieces.map Prod.snd =
      pawnState.pieces.map Prod.snd ∧
    (toggleDimension pawnState 3).activeDimensions.length =
      pawnState.activeDimensions.length + 1 :=
  ⟨(toggle_dimension_preserves_pieces pawnState 3).1,
   (toggle_dimension_preserves_pieces pawnState 3).2.1 (by decide)⟩

/-- C3 counterexample: moving a rook from [0,0,0,0,0] to [0,0,0,3,4] with
fatigue enabled and no capture.  Here h = 2 higher dimensions change,
2 components change, and the distance is exactly 5.  The code yields 49.2
(the fatigue multiplier is applied before the dimensions-touched term is
added), while the formula of the claim (fatigue scaling all preceding
terms, including dimensions-touched) yields 53.2. -/
theorem complexity_fatigue_order_cex :
    roundedComplexity [0, 0, 0, 0, 0] [0, 0, 0, 3, 4] .rook false true =
      246 / 5 ∧
    specClaimRounded [0, 0, 0, 0, 0] [0, 0, 0, 3, 4] .rook false true =
      266 / 5 ∧
    (246 / 5 : ℚ) ≠ 266 / 5 := by
  have hdims : dimensionsUsed [0, 0, 0, 0, 0] [0, 0, 0, 3, 4] = [3, 4] := by
    decide
  have hdist : distanceSquared [0, 0, 0, 0, 0] [0, 0, 0, 3, 4] = 25 := by
    decide
  have hcode : calculateMoveComplexity [0, 0, 0, 0, 0] [0, 0, 0, 3, 4] .rook
      false true = (457 / 10, 7 / 10) := by
    unfold calculateMoveComplexity
    rw [hdims]
    norm_num [pieceTypeWeight, PieceType.isHyper]
  have hspec : specClaimMoveComplexity [0, 0, 0, 0, 0] [0, 0, 0, 3, 4] .rook
      false true = (497 / 10, 7 / 10) := by
    unfold specClaimMoveComplexity
    rw [hdims]
    norm_num [pieceTypeWeight, PieceType.isHyper]
  refine ⟨?_, ?_, by norm_num⟩
  · unfold roundedComplexity
    rw [hcode, hdist]
    show roundTo1 ((457 / 10 : ℚ), (7 / 10 : ℚ)).1
      ((457 / 10 : ℚ), (7 / 10 : ℚ)).2 25 = 246 / 5
    unfold roundTo1 floorAddSqrt
    rw [show (10 * ((457 / 10 : ℚ), (7 / 10 : ℚ)).1 + 1 / 2) = 915 / 2 from
      by norm_num]
    rw [show ((10 * ((457 / 10 : ℚ), (7 / 10 : ℚ)).2) *
      (10 * ((457 / 10 : ℚ), (7 / 10 : ℚ)).2) * ((25 : ℕ) : ℚ)) =
      (1225 : ℚ) from by norm_num]
    rw [show ((915 / 2 : ℚ)).num = 915 from by norm_num,
      show ((915 / 2 : ℚ)).den = 2 from by norm_num,
      show ((1225 : ℚ)).num = 1225 from by norm_num,
      show ((1225 : ℚ)).den = 1 from by norm_num]
    rw [show ((2 * 2 * 1 : ℕ) * (1225 : Int).toNat) = 70 ^ 2 from by decide,
      Nat.sqrt_eq']
    norm_num
  · unfold specClaimRounded
    rw [hspec, hdist]
    show roundTo1 ((497 / 10 : ℚ), (7 / 10 : ℚ)).1
      ((497 / 10 : ℚ), (7 / 10 : ℚ)).2 25 = 266 / 5
    unfold roundTo1 floorAddSqrt
    rw [show (10 * ((497 / 10 : ℚ), (7 / 10 : ℚ)).1 + 1 / 2) = 995 / 2 from
      by norm_num]
    rw [show ((10 * ((497 / 10 : ℚ), (7 / 10 : ℚ)).2) *
      (10 * ((497 / 10 : ℚ), (7 / 10 : ℚ)).2) * ((25 : ℕ) : ℚ)) =
      (1225 : ℚ) from by norm_num]
    rw [show ((995 / 2 : ℚ)).num = 995 from by norm_num,
      show ((995 / 2 : ℚ)).den = 2 from by norm_num,
      show ((1225 : ℚ)).num = 1225 from by norm_num,
      show ((1225 : ℚ)).den = 1 from by norm_num]
    rw [show ((2 * 2 * 1 : ℕ) * (1225 : Int).toNat) = 70 ^ 2 from by decide,
      Nat.sqrt_eq']
    norm_num

/-- C3 (amended): the committed-move complexity added to the running total
equals the claimed formula with one change: the fatigue multiplier
(applied when fatigue is enabled and more than one higher dimension
changed) scales only the piece weight, capture bonus, distance term and
higher-dimension bonus; the dimensions-touched term (5 per changed
component) and the hyperpiece pair bonus are added after the
multiplication, and the result is rounded to one decimal place. -/
theorem complexity_formula_amended :
    (∀ (st : GameState) (sel : SelectedPiece) (newCoords : Coords),
      (movePiece st sel newCoords).totalComplexityScore =
        st.totalComplexityScore +
          specAmendedRounded sel.coords newCoords sel.piece.type
            (getPieceAt st.pieces newCoords).isSome st.dimensionalFatigue) ∧
    (∀ (fromCoords toCoords : List Int) (ptype : PieceType)
        (isCapture fatigue : Bool),
      roundedComplexity fromCoords toCoords ptype isCapture fatigue =
        specAmendedRounded fromCoords toCoords ptype isCapture fatigue) := by
  constructor
  · intro st sel newCoords
    rw [movePiece_score, roundedComplexity_eq_amended]
  · intro fromCoords toCoords ptype isCapture fatigue
    exact roundedComplexity_eq_amended fromCoords toCoords ptype isCapture
      fatigue

/-- C3 witness: the amended equation instantiated at the concrete capture
state and at a concrete argument tuple. -/
theorem complexity_formula_amended_witness :
    (movePiece captureState rookSelection [1, 0, 0]).totalComplexityScore =
      captureState.totalComplexityScore +
        specAmendedRounded rookSelection.coords [1, 0, 0]
          rookSelection.piece.type
          (getPieceAt captureState.pieces [1, 0, 0]).isSome
          captureState.dimensionalFatigue ∧
    roundedComplexity [0, 0, 0, 0, 0] [0, 0, 0, 3, 4] .rook false true =
      specAmendedRounded [0, 0, 0, 0, 0] [0, 0, 0, 3, 4] .rook false true :=
  ⟨complexity_formula_amended.1 captureState rookSelection [1, 0, 0],
   complexity_formula_amended.2 [0, 0, 0, 0, 0] [0, 0, 0, 3, 4] .rook false
     true⟩

/-- C4 counterexample: with fatigue enabled the rook range in dimension
index 3 is max(7-3, 2) = 4, while the spec formula 7 / 2^(d-1) gives 0 for
the 1-based dimension number 4 (and 1 even if d were read as the 0-based
index 3). -/
theorem rook_fatigue_formula_cex :
    rookRange true 3 = 4 ∧
    specFatigueRange 4 = 0 ∧
    specFatigueRange 3 = 1 ∧
    ((4 : Int) ≠ ((specFatigueRange 4 : Nat) : Int)) ∧
    ((4 : Int) ≠ ((specFatigueRange 3 : Nat) : Int)) := by
  refine ⟨by decide, by decide, by decide, by decide, by decide⟩

/-- C4 (amended): the rook scan range is 7 when fatigue is disabled; with
fatigue enabled it is 7 for dimension indices 0..2 and max(7-d, 2) for
indices above 2 — a non-increasing function of the dimension index, never
below 2. -/
theorem rook_range_amended :
    (∀ d, rookRange false d = 7) ∧
    (∀ d, d ≤ 2 → rookRange true d = 7) ∧
    (∀ d, 2 < d → rookRange true d = max (7 - (d : Int)) 2) ∧
    (∀ d e, d ≤ e → rookRange true e ≤ rookRange true d) ∧
    (∀ d, 2 ≤ rookRange true d) := by
  refine ⟨fun d => rfl, fun d hd => ?_, fun d hd => ?_, fun d e hde => ?_,
    fun d => ?_⟩
  · simp only [rookRange, if_true]
    rw [if_neg (by omega)]
    decide
  · simp only [rookRange, if_true]
    rw [if_pos (by omega)]
  · simp only [rookRange, if_true]
    by_cases h1 : d > 2 <;> by_cases h2 : e > 2 <;>
      simp only [h1, h2, if_true, if_false] <;>
      simp [Int.max_def] <;> split_ifs <;> omega
  · simp only [rookRange, if_true]
    exact le_max_right _ _

/-- C4 witness: the amended description evaluated at dimension index 4. -/
theorem rook_range_amended_witness :
    rookRange true 4 = max (7 - (4 : Int)) 2 :=
  rook_range_amended.2.2.1 4 (by decide)

/-- C5: no move generator, for any piece type, board, dimension
configuration or fatigue and view setting, returns a destination occupied
by a piece of the moving color. -/
theorem generator_no_friendly :
    ∀ (pieces : Pieces) (activeDims viewDims : List Nat) (fatigue : Bool)
      (ptype : PieceType) (color : Color) (coords m : Coords) (p : PieceVal),
      m ∈ calculateValidMoves pieces activeDims viewDims fatigue ptype color
        coords →
      getPieceAt pieces m = some p → p.color ≠ color := by
  intro pieces activeDims viewDims fatigue ptype color coords m p hm hp
  cases ptype with
  | pawn => exact pawnMoves_no_friendly hm p hp
  | rook => exact rookMoves_no_friendly hm p hp
  | knight => exact knightMoves_no_friendly hm p hp
  | bishop => exact bishopMoves_no_friendly hm p hp
  | queen => exact queenMoves_no_friendly hm p hp
  | king => exact kingMoves_no_friendly hm p hp
  | hyperrook => exact hyperrookMoves_no_friendly hm p hp
  | hyperbishop => exact hyperbishopMoves_no_friendly hm p hp
  | hyperknight => exact hyperknightMoves_no_friendly hm p hp

/-- C5 witness: on a board with one black pawn at [1,0,0], that square is
among the white rook moves from the origin, is enemy-occupied, and the
occupant color is indeed not white. -/
theorem generator_no_friendly_witness :
    [1, 0, 0] ∈ calculateValidMoves enemyBoard [0, 1, 2] [0, 1, 2] false
      .rook .white [0, 0, 0] ∧
    getPieceAt enemyBoard [1, 0, 0] = some ⟨.pawn, .black, [1, 0, 0]⟩ ∧
    Color.black ≠ Color.white :=
  ⟨by decide, rfl,
   generator_no_friendly enemyBoard [0, 1, 2] [0, 1, 2] false .rook .white
     [0, 0, 0] [1, 0, 0] ⟨.pawn, .black, [1, 0, 0]⟩ (by decide) rfl⟩

/-- C6: while a piece is selected, clicking a tile outside the cached
valid-move set only deselects: occupancy, the current turn, both captured
lists and the complexity score are unchanged, and the selection and the
cached valid moves are cleared. -/
theorem invalid_destination_deselects :
    ∀ (st : GameState) (sel : SelectedPiece) (coords : Coords),
      st.selectedPiece = some sel → coords ∉ st.validMoves →
      (handleTileClick st coords).pieces = st.pieces ∧
      (handleTileClick st coords).currentTurn = st.currentTurn ∧
      (handleTileClick st coords).capturedWhite = st.capturedWhite ∧
      (handleTileClick st coords).capturedBlack = st.capturedBlack ∧
      (handleTileClick st coords).totalComplexityScore =
        st.totalComplexityScore ∧
      (handleTileClick st coords).selectedPiece = none ∧
      (handleTileClick st coords).validMoves = [] := by
  intro st sel coords hsel hmem
  have h : handleTileClick st coords = deselectCurrentPiece st := by
    unfold handleTileClick
    rw [hsel]
    exact if_neg hmem
  rw [h]
  exact ⟨rfl, rfl, rfl, rfl, rfl, rfl, rfl⟩

/-- C6 witness: clicking [9,9,9] (not a cached valid move) on the concrete
selected state leaves everything but the selection unchanged. -/
theorem invalid_destination_deselects_witness :
    (handleTileClick selectedState [9, 9, 9]).pieces = selectedState.pieces ∧
    (handleTileClick selectedState [9, 9, 9]).currentTurn =
      selectedState.currentTurn ∧
    (handleTileClick selectedState [9, 9, 9]).capturedWhite =
      selectedState.capturedWhite ∧
    (handleTileClick selectedState [9, 9, 9]).capturedBlack =
      selectedState.capturedBlack ∧
    (handleTileClick selectedState [9, 9, 9]).totalComplexityScore =
      selectedState.totalComplexityScore ∧
    (handleTileClick selectedState [9, 9, 9]).selectedPiece = none ∧
    (handleTileClick selectedState [9, 9, 9]).validMoves = [] :=
  invalid_destination_deselects selectedState rookSelection [9, 9, 9] rfl
    (by decide)

/-- C7: starting from a white-to-move state, after any event sequence the
turn is white exactly when the number of committed moves along the
trajectory is even; and no non-committing event (piece click, deselect,
invalid tile click, dimension toggle, view change, fatigue toggle) changes
the turn. -/
theorem turn_alternation :
    (∀ (st : GameState) (ops : List Op), st.currentTurn = .white →
      (applyOps st ops).currentTurn =
        if countCommits st ops % 2 = 0 then Color.white else Color.black) ∧
    (∀ (st : GameState) (op : Op), isCommit st op = false →
      (applyOp st op).currentTurn = st.currentTurn) := by
  constructor
  · intro st ops hw
    rw [applyOps_turn_parity ops st, hw]
    by_cases hn : countCommits st ops % 2 = 0
    · rw [if_pos hn, if_pos hn]
    · rw [if_neg hn, if_neg hn]
      rfl
  · intro st op hc
    rw [applyOp_currentTurn, hc]
    rfl

/-- C7 witness: committing the cached move [5,5,5] from the concrete
selected state counts one committed move, and the resulting turn follows
the parity rule. -/
theorem turn_alternation_witness :
    (applyOps selectedState [Op.tileClick [5, 5, 5]]).currentTurn =
      (if countCommits selectedState [Op.tileClick [5, 5, 5]] % 2 = 0 then
        Color.white
      else Color.black) ∧
    countCommits selectedState [Op.tileClick [5, 5, 5]] = 1 :=
  ⟨turn_alternation.1 selectedState [Op.tileClick [5, 5, 5]] rfl, by decide⟩

/-- C8: a committed capture removes the destination occupant, appends
exactly its type and color to the capturing color captured list, leaves
the other captured list unchanged, and shrinks the occupancy by exactly
one piece; a non-capturing committed move leaves both captured lists and
the piece count unchanged. -/
theorem capture_round_trip :
    ∀ (st : GameState) (sel : SelectedPiece) (newCoords : Coords)
      (pv : PieceVal),
      (st.pieces.map Prod.fst).Nodup →
      getPieceAt st.pieces sel.key = some pv →
      sel.key ≠ newCoords →
      (∀ q, getPieceAt st.pieces newCoords = some q → q.color ≠ sel.piece.color →
        (movePiece st sel newCoords).pieces.length + 1 = st.pieces.length ∧
        (movePiece st sel newCoords).capturedOf sel.piece.color =
          st.capturedOf sel.piece.color ++ [CapturedEntry.mk q.type q.color] ∧
        (movePiece st sel newCoords).capturedOf sel.piece.color.other =
          st.capturedOf sel.piece.color.other) ∧
      (getPieceAt st.pieces newCoords = none →
        (movePiece st sel newCoords).pieces.length = st.pieces.length ∧
        ∀ c, (movePiece st sel newCoords).capturedOf c = st.capturedOf c) := by
  intro st sel newCoords pv hnodup hsel hne
  constructor
  · intro q hq _
    exact movePiece_capture_spec st sel newCoords pv q hnodup hsel hne hq
  · intro hq
    exact movePiece_noncapture_spec st sel newCoords pv hsel hq

/-- C8 witness: capturing the black pawn at [1,0,0] with the selected
white rook on the concrete two-piece state shrinks the occupancy from 2
pieces to 1 and appends exactly one (pawn, black) entry to the white
captured list. -/
theorem capture_round_trip_witness :
    (movePiece captureState rookSelection [1, 0, 0]).pieces.length + 1 =
      captureState.pieces.length ∧
    (movePiece captureState rookSelection [1, 0, 0]).capturedOf
        rookSelection.piece.color =
      captureState.capturedOf rookSelection.piece.color ++
        [CapturedEntry.mk .pawn .black] ∧
    (movePiece captureState rookSelection [1, 0, 0]).capturedOf
        rookSelection.piece.color.other =
      captureState.capturedOf rookSelection.piece.color.other :=
  (capture_round_trip captureState rookSelection [1, 0, 0]
      ⟨.rook, .white, [0, 0, 0]⟩ (by decide) rfl (by decide)).1
    ⟨.pawn, .black, [1, 0, 0]⟩ rfl (by decide)

/-- C9: with 3 active dimensions, fatigue disabled, a full 3-axis view and
a board holding only the rook itself, the rook generator returns exactly
42 destinations (range 7, 2 directions, 3 dimensions) from any square. -/
theorem rook_moves_count_42 :
    ∀ (coords : Coords) (color : Color) (activeDims viewDims : List Nat),
      activeDims.length = 3 → viewDims.length = 3 → coords.length = 3 →
      (calculateRookMoves [(coords, ⟨.rook, color, coords⟩)] activeDims
        viewDims false color coords).length = 42 :=
  fun coords color activeDims viewDims hA hV hC =>
    rookMoves_count_core coords color activeDims viewDims hA hV hC

/-- C9 witness: the count evaluated from the origin with the standard
dimension lists. -/
theorem rook_moves_count_42_witness :
    (calculateRookMoves [([0, 0, 0], ⟨.rook, .white, [0, 0, 0]⟩)] [0, 1, 2]
      [0, 1, 2] false .white [0, 0, 0]).length = 42 :=
  rook_moves_count_42 [0, 0, 0] .white [0, 1, 2] [0, 1, 2] rfl rfl rfl

/-- C10: under a restricted view (fewer than 3 view dimensions), no knight
move changes any coordinate outside the view mapping, and no king move
changes any active-dimension coordinate outside the view mapping. -/
theorem knight_king_view_restriction :
    ∀ (pieces : Pieces) (activeDims viewDims : List Nat) (color : Color)
      (coords m : Coords) (i : Nat),
      viewDims.length < 3 → i ∉ viewDims →
      (m ∈ calculateKnightMoves pieces activeDims viewDims color coords →
        m.getD i 0 = coords.getD i 0) ∧
      (i < activeDims.length →
        m ∈ calculateKingMoves pieces activeDims viewDims color coords →
        m.getD i 0 = coords.getD i 0) := by
  intro pieces activeDims viewDims color coords m i hview hi
  constructor
  · intro hm
    exact knightMoves_restricted hview hm hi
  · intro hlt hm
    exact kingMoves_restricted hview hm hi hlt

/-- C10 witness: with view dimensions [0,1], the knight move [7,7,7] from
[5,6,7] keeps coordinate 2 fixed, as the theorem states. -/
theorem knight_king_view_restriction_witness :
    [7, 7, 7] ∈ calculateKnightMoves [] [0, 1, 2] [0, 1] .white [5, 6, 7] ∧
    List.getD ([7, 7, 7] : List Int) 2 0 =
      List.getD ([5, 6, 7] : List Int) 2 0 :=
  ⟨by decide,
   (knight_king_view_restriction [] [0, 1, 2] [0, 1] .white [5, 6, 7]
     [7, 7, 7] 2 (by decide) (by decide)).1 (by decide)⟩

end NDChess
